import Mathlib

/-!
# AStarInC: a shallow embedding of `main.c` and its verified properties

The C program keeps two globals, `grid` (a `GRID_W × GRID_H` array of `Node`s)
and `open_set` (an array of `Point`s with its length `open_set_count`).  Here
the grid is a total function from index pairs to nodes, the open set is the
list `open_set[0 .. open_set_count)`, and every procedure takes the globals it
reads and returns the globals it writes.

* C `int` arithmetic is carried out in `Int` and brought back into the 32-bit
  two's-complement range with `wrap_int` after every `+`, `-` and `abs` of the
  cost computations.
* Procedures that can stop the program (`assert`, `abort`) return `Option`;
  loops that need not terminate take a `fuel` argument.
* The grid being a total function, a read outside the array has a value in
  the model; the invariant of the search shows that the loop only indexes
  cells of the grid.
* Printing is not modelled, except for what the program reports when it
  stops (`report`).
-/

namespace AStar

/-! ## Constants and data -/

def GRID_W : Int := 30
def GRID_H : Int := 15
def MAX_NODE_COUNT : Int := GRID_W * GRID_H
def INT_MAX : Int := 2147483647

/-- The value of a C `int` expression whose mathematical value is `v`
(32-bit two's complement). -/
def wrap_int (v : Int) : Int := (v + 2147483648) % 4294967296 - 2147483648

/-- The C library function `abs` on `int`. -/
def c_abs (v : Int) : Int := wrap_int (if v < 0 then -v else v)

structure Point where
  x : Int
  y : Int
deriving DecidableEq, Repr

structure Node where
  walkable : Bool
  graphics : Char
  pos : Point
  came_from : Point
  f_score : Int
  g_score : Int
deriving DecidableEq, Repr

/-- The global `Node grid[GRID_W][GRID_H]`, indexed as `grid x y`. -/
abbrev Grid := Int → Int → Node

/-- The assignment `grid[x][y] = n`. -/
def Grid.set (grid : Grid) (x y : Int) (n : Node) : Grid :=
  fun a b => if a = x ∧ b = y then n else grid a b

/-- The globals of the program: the grid and the used prefix of `open_set`. -/
structure State where
  grid : Grid
  open_set : List Point

/-- An index pair that lies inside `grid`. -/
def InBounds (p : Point) : Prop := 0 ≤ p.x ∧ p.x < GRID_W ∧ 0 ≤ p.y ∧ p.y < GRID_H

instance (p : Point) : Decidable (InBounds p) := by
  unfold InBounds; infer_instance

/-! ## The procedures of `main.c` -/

/-- The assignments of `generate_maze` to the cell `grid[x][y]`, once its
`walkable` flag has been computed. -/
def maze_cell (x y : Int) (walkable : Bool) : Node :=
  { walkable := walkable
    graphics := if walkable then ' ' else 'X'
    pos := ⟨x, y⟩
    came_from := ⟨-1, -1⟩
    f_score := 0
    g_score := INT_MAX }

/-- The procedure `generate_maze`; `rand x y` is the (non-negative) value that
the call of `rand()` returns for the cell `(x, y)`. -/
def generate_maze (rand : Int → Int → Int) : Grid := fun x y =>
  maze_cell x y
    (if x = 0 then false
     else if x = GRID_W - 1 then false
     else if y = 0 then false
     else if y = GRID_H - 1 then false
     else if x = 1 ∧ y = 1 then true
     else if x = GRID_W - 2 ∧ y = GRID_H - 2 then true
     else decide (rand x y % 100 > 25))

def point_eq (a b : Point) : Bool := a.x == b.x && a.y == b.y

def heuristic (start goal : Point) : Int :=
  wrap_int (c_abs (wrap_int (goal.x - start.x)) + c_abs (wrap_int (goal.y - start.y)))

/-- The scan of `add_to_open_set` over the entries not yet compared: `true`
when one of them equals `p` in both coordinates. -/
def open_set_has (p : Point) : List Point → Bool
  | [] => false
  | q :: rest => if p.x = q.x ∧ p.y = q.y then true else open_set_has p rest

def add_to_open_set (p : Point) (open_set : List Point) : List Point :=
  if open_set_has p open_set then open_set else open_set ++ [p]

/-- The loop of `get_point_with_lowest_f_score` over the entries not yet
visited, carrying `lowest_f_score` and `best`. -/
def lowest_f_scan (grid : Grid) : List Point → Int → Point → Int × Point
  | [], lowest_f_score, best => (lowest_f_score, best)
  | q :: rest, lowest_f_score, best =>
    if (grid q.x q.y).f_score < lowest_f_score then
      lowest_f_scan grid rest (grid q.x q.y).f_score q
    else
      lowest_f_scan grid rest lowest_f_score best

/-- Returns `none` when the assertion `best.x > -1 && best.y > -1` fails. -/
def get_point_with_lowest_f_score (grid : Grid) (open_set : List Point) : Option Point :=
  let best := (lowest_f_scan grid open_set INT_MAX ⟨-1, -1⟩).2
  if best.x > -1 ∧ best.y > -1 then some best else none

/-- The index at which the loop of `remove_from_open_set` finds `p`, counted
from `i`, the index of the head of the list. -/
def find_slot (p : Point) : List Point → Nat → Option Nat
  | [], _ => none
  | q :: rest, i => if p.x = q.x ∧ p.y = q.y then some i else find_slot p rest (i + 1)

/-- Returns `none` when the procedure reaches `abort()`.  Otherwise slot `i`
receives the last entry and the count drops by one. -/
def remove_from_open_set (p : Point) (open_set : List Point) : Option (List Point) :=
  match find_slot p open_set 0 with
  | none => none
  | some i => some ((open_set.set i (open_set.getD (open_set.length - 1) p)).dropLast)

/-- The pointers stored by `neighbours_from`, as the index pairs of the nodes
they point to, in the order they are stored. -/
def neighbours_from (grid : Grid) (p : Point) : List Point :=
  (if p.x > 0 ∧ (grid (p.x - 1) p.y).walkable then [(⟨p.x - 1, p.y⟩ : Point)] else []) ++
  (if p.y > 0 ∧ (grid p.x (p.y - 1)).walkable then [(⟨p.x, p.y - 1⟩ : Point)] else []) ++
  (if p.x < GRID_W - 1 ∧ (grid (p.x + 1) p.y).walkable then [(⟨p.x + 1, p.y⟩ : Point)] else []) ++
  (if p.y < GRID_H - 1 ∧ (grid p.x (p.y + 1)).walkable then [(⟨p.x, p.y + 1⟩ : Point)] else [])

/-- The `while` loop of `reconstruct_path` from the current value of `pos`.
The result is the grid with the visited cells marked and the values taken by
`pos`, the last one (`start`) first.  `none` when the assertion fails or the
loop is still running after `fuel` rounds. -/
def reconstruct_loop (start : Point) : Nat → Grid → Point → List Point → Option (Grid × List Point)
  | 0, grid, pos, visited =>
    if point_eq pos start then some (grid, pos :: visited) else none
  | fuel + 1, grid, pos, visited =>
    if point_eq pos start then some (grid, pos :: visited)
    else if pos.x > -1 ∧ pos.y > -1 then
      let n := grid pos.x pos.y
      reconstruct_loop start fuel (grid.set pos.x pos.y { n with graphics := '.' })
        n.came_from (pos :: visited)
    else none

def reconstruct_path (fuel : Nat) (grid : Grid) (start goal : Point) : Option (Grid × List Point) :=
  reconstruct_loop start fuel grid goal []

/-- One round of the `for` loop over `neighbours` in `main`, for the neighbour
stored at index pair `nb`; `pos` is the expanded point (`node = &grid[pos]`). -/
def relax (goal pos : Point) (s : State) (nb : Point) : State :=
  let tentative_g_score := wrap_int ((s.grid pos.x pos.y).g_score + 1)
  let neighbour := s.grid nb.x nb.y
  if tentative_g_score < neighbour.g_score then
    { grid := s.grid.set nb.x nb.y
        { neighbour with
          came_from := pos
          g_score := tentative_g_score
          f_score := wrap_int (tentative_g_score + heuristic neighbour.pos goal) }
      open_set := add_to_open_set neighbour.pos s.open_set }
  else s

/-- The `for` loop over the neighbours that are still to be visited. -/
def relax_all (goal pos : Point) : State → List Point → State
  | s, [] => s
  | s, nb :: rest => relax_all goal pos (relax goal pos s nb) rest

/-- How one round of the `while` loop of `main` ends. -/
inductive Round where
  /-- The popped point is the goal: the success branch is taken. -/
  | found
  /-- The assertion `best.x > -1 && best.y > -1` failed. -/
  | assert_failed
  /-- The function `remove_from_open_set` did not find the point and aborted. -/
  | remove_failed
  /-- The round ran to its end (just before `max_steps--`) and left this state. -/
  | next (s : State)

/-- The body of the `while` loop of `main`, without the final `max_steps--`. -/
def loop_body (goal : Point) (s : State) : Round :=
  match get_point_with_lowest_f_score s.grid s.open_set with
  | none => Round.assert_failed
  | some pos =>
    if point_eq pos goal then Round.found
    else
      match remove_from_open_set pos s.open_set with
      | none => Round.remove_failed
      | some rest =>
        Round.next (relax_all goal pos { s with open_set := rest } (neighbours_from s.grid pos))

/-- How a run of the search ends. -/
inductive Outcome where
  /-- The goal was popped: "Found a path to the goal." is printed and
  `reconstruct_path` is called on the state carried here. -/
  | found (s : State)
  /-- The `while` loop was left with `max_steps` as carried here: "Bailed out."
  is printed when it is zero, then "Failed to find a path." and `abort()`. -/
  | failed (max_steps : Int) (s : State)
  /-- The assertion `best.x > -1 && best.y > -1` failed. -/
  | assert_failed
  /-- The function `remove_from_open_set` did not find the point and aborted. -/
  | remove_failed
  /-- The model ran out of fuel while the loop condition still held. -/
  | out_of_fuel

/-- The `while` loop of `main` and the statements after it.  `fuel` bounds the
number of rounds of the model; `search` passes `max_steps` itself, which is
always enough. -/
def search_loop (goal : Point) : Nat → Int → State → Outcome
  | 0, max_steps, s =>
    if s.open_set.length > 0 ∧ max_steps > 0 then Outcome.out_of_fuel
    else Outcome.failed max_steps s
  | fuel + 1, max_steps, s =>
    if s.open_set.length > 0 ∧ max_steps > 0 then
      match loop_body goal s with
      | Round.found => Outcome.found s
      | Round.assert_failed => Outcome.assert_failed
      | Round.remove_failed => Outcome.remove_failed
      | Round.next s1 => search_loop goal fuel (max_steps - 1) s1
    else Outcome.failed max_steps s

/-- What the program reports when it stops. -/
inductive Report where
  /-- Only "Found a path to the goal." -/
  | Success
  /-- Only "Failed to find a path." -/
  | NoPathFound
  /-- The line "Bailed out." and then "Failed to find a path." -/
  | BudgetExceeded
  /-- An assertion failure or the abort of `remove_from_open_set`. -/
  | Crash
deriving DecidableEq, Repr

/-- The report of a run: after the loop, `if(!max_steps)` prints "Bailed out."
and "Failed to find a path." is printed in every case. -/
def report : Outcome → Report
  | Outcome.found _ => Report.Success
  | Outcome.failed max_steps _ => if max_steps = 0 then Report.BudgetExceeded else Report.NoPathFound
  | Outcome.assert_failed => Report.Crash
  | Outcome.remove_failed => Report.Crash
  | Outcome.out_of_fuel => Report.Crash

/-- The statements of `main` between `generate_maze` and the `while` loop:
the start node gets `g_score = 0` and its `f_score`, and enters the open set
(which the program starts with `open_set_count = 0`). -/
def init_search (grid : Grid) (start goal : Point) : State :=
  let n0 := grid start.x start.y
  let grid1 := grid.set start.x start.y { n0 with g_score := 0 }
  let n1 := grid1 start.x start.y
  let grid2 := grid1.set start.x start.y { n1 with f_score := heuristic start goal }
  { grid := grid2, open_set := add_to_open_set start [] }

/-- The search of `main` on a given grid, start, goal and value of `max_steps`. -/
def search (grid : Grid) (start goal : Point) (max_steps : Int) : Outcome :=
  search_loop goal max_steps.toNat max_steps (init_search grid start goal)

/-! ## Notions used to state the properties -/

/-- The state after `k` complete rounds of the `while` loop when the budget
never runs out; `none` when the loop stops before (open set empty, goal popped,
assertion failure or abort). -/
def rounds (goal : Point) : Nat → State → Option State
  | 0, s => some s
  | k + 1, s =>
    if s.open_set.length > 0 then
      match loop_body goal s with
      | Round.next s1 => rounds goal k s1
      | _ => none
    else none

/-- The search needs more than `k` rounds from state `s`: `k` complete rounds
can be run, none of them popping the goal, and the open set is not empty
after them. -/
def needs_more_rounds (goal : Point) (k : Nat) (s : State) : Bool :=
  match rounds goal k s with
  | some sk => decide (sk.open_set.length > 0)
  | none => false

/-- Two cells are orthogonally adjacent: they differ by exactly 1 in exactly
one coordinate. -/
def Adjacent (a b : Point) : Prop :=
  (a.x = b.x ∧ (a.y - b.y = 1 ∨ b.y - a.y = 1)) ∨ (a.y = b.y ∧ (a.x - b.x = 1 ∨ b.x - a.x = 1))

instance (a b : Point) : Decidable (Adjacent a b) := by
  unfold Adjacent; infer_instance

/-- The cells `moves` can be walked one after the other from `a`: each one is
in bounds, walkable and orthogonally adjacent to the cell before it. -/
def route_from (grid : Grid) : Point → List Point → Prop
  | _, [] => True
  | a, c :: rest =>
    Adjacent a c ∧ InBounds c ∧ (grid c.x c.y).walkable = true ∧ route_from grid c rest

/-- Whether the moves can be walked is decided cell by cell. -/
def route_from_decide (grid : Grid) :
    (a : Point) → (moves : List Point) → Decidable (route_from grid a moves)
  | _, [] => isTrue trivial
  | a, c :: rest =>
    have := route_from_decide grid c rest
    (inferInstance : Decidable
      (Adjacent a c ∧ InBounds c ∧ (grid c.x c.y).walkable = true ∧ route_from grid c rest))

instance (grid : Grid) (a : Point) (moves : List Point) : Decidable (route_from grid a moves) :=
  route_from_decide grid a moves

/-- The cell reached from `a` after the moves. -/
def route_end : Point → List Point → Point
  | a, [] => a
  | _, c :: rest => route_end c rest

/-- The list `moves` is a route from `a` to `b`; its number of steps is
`moves.length`. -/
def Route (grid : Grid) (a b : Point) (moves : List Point) : Prop :=
  route_from grid a moves ∧ route_end a moves = b

instance (grid : Grid) (a b : Point) (moves : List Point) : Decidable (Route grid a b moves) := by
  unfold Route; infer_instance

/-- The cost table as `generate_maze` leaves it, on the cells of the grid. -/
def Fresh (grid : Grid) : Prop :=
  ∀ p, InBounds p →
    (grid p.x p.y).pos = p ∧ (grid p.x p.y).came_from = ⟨-1, -1⟩ ∧
      (grid p.x p.y).g_score = INT_MAX

/-- The Manhattan distance between two cells. -/
def manhattan (p goal : Point) : Int := |goal.x - p.x| + |goal.y - p.y|

/-! ## Grids used in the concrete runs -/

/-- The grid that the assignments of `generate_maze` leave when the occupancy
is `walk` (any occupancy, not only those the maze generator produces). -/
def fresh_grid (walk : Int → Int → Bool) : Grid := fun x y => maze_cell x y (walk x y)

/-- A fresh grid in which every cell is walkable. -/
def no_walls : Grid := fresh_grid (fun _ _ => true)

/-- A fresh grid in which no cell is walkable. -/
def all_walls : Grid := fresh_grid (fun _ _ => false)

/-- A fresh grid whose column `x = 2` is a wall and whose other cells are
walkable. -/
def wall_at_2 : Grid := fresh_grid (fun x _ => decide (x ≠ 2))

/-- A fresh grid whose column `x = 2` is a wall with one gap at `(2, 2)`; all
other cells are walkable. -/
def wall_with_gap : Grid := fresh_grid (fun x y => decide (x ≠ 2 ∨ y = 2))

/-- The state in which the search on `wall_with_gap` from `(0, 0)` to `(4, 4)`
pops the goal: the state after 16 complete rounds. -/
def gap_state : State :=
  (rounds ⟨4, 4⟩ 16 (init_search wall_with_gap ⟨0, 0⟩ ⟨4, 4⟩)).getD
    (init_search wall_with_gap ⟨0, 0⟩ ⟨4, 4⟩)

/-- The grid left by `reconstruct_path` when it is called in `gap_state`. -/
def gap_marked : Grid :=
  ((reconstruct_path 8 gap_state.grid ⟨0, 0⟩ ⟨4, 4⟩).map Prod.fst).getD gap_state.grid

/-- A grid in which every cell has `f_score = INT_MAX`. -/
def f_at_int_max : Grid := fun x y => { no_walls x y with f_score := INT_MAX }

/-! ## The invariant of the search loop -/

/-- The effect of one complete round of the loop that expands `n`: the
neighbours of `n` with a larger `g_score` than `g_score(n) + 1` are rewritten
and enter the open set, `n` leaves it, nothing else changes. -/
structure Expands (goal : Point) (s : State) (n : Point) (s1 : State) : Prop where
  grid_eq : ∀ p : Point, s1.grid p.x p.y =
    if p ∈ neighbours_from s.grid n ∧
        (s.grid n.x n.y).g_score + 1 < (s.grid p.x p.y).g_score then
      { s.grid p.x p.y with
        came_from := n
        g_score := (s.grid n.x n.y).g_score + 1
        f_score := (s.grid n.x n.y).g_score + 1 + manhattan p goal }
    else s.grid p.x p.y
  mem_open : ∀ q : Point, q ∈ s1.open_set ↔
    ((q ∈ s.open_set ∧ q ≠ n) ∨
      (q ∈ neighbours_from s.grid n ∧
        (s.grid n.x n.y).g_score + 1 < (s.grid q.x q.y).g_score))
  nodup : s1.open_set.Nodup

/-- The invariant of the `while` loop of `main` for a search that started on
the fresh grid `grid0`.  `closed` lists the cells expanded so far, the latest
first. -/
structure SearchInv (grid0 : Grid) (start goal : Point) (s : State) (closed : List Point) :
    Prop where
  walk : ∀ x y, (s.grid x y).walkable = (grid0 x y).walkable
  pos : ∀ p : Point, InBounds p → (s.grid p.x p.y).pos = p
  open_nodup : s.open_set.Nodup
  open_in : ∀ p ∈ s.open_set, InBounds p
  open_fin : ∀ p ∈ s.open_set, (s.grid p.x p.y).g_score < INT_MAX
  closed_nodup : closed.Nodup
  closed_iff : ∀ p : Point, p ∈ closed ↔
    (InBounds p ∧ (s.grid p.x p.y).g_score < INT_MAX ∧ p ∉ s.open_set)
  g_start : (s.grid start.x start.y).g_score = 0
  g_range : ∀ p : Point, InBounds p → (s.grid p.x p.y).g_score < INT_MAX →
    0 ≤ (s.grid p.x p.y).g_score ∧ (s.grid p.x p.y).g_score ≤ closed.length
  g_route : ∀ p : Point, InBounds p → (s.grid p.x p.y).g_score < INT_MAX →
    ∃ moves, Route grid0 start p moves ∧ (moves.length : Int) = (s.grid p.x p.y).g_score
  f_eq : ∀ p : Point, InBounds p → (s.grid p.x p.y).g_score < INT_MAX →
    (s.grid p.x p.y).f_score = (s.grid p.x p.y).g_score + manhattan p goal
  closed_opt : ∀ p ∈ closed, ∀ moves, Route grid0 start p moves →
    (s.grid p.x p.y).g_score ≤ moves.length
  closed_nbr : ∀ p ∈ closed, ∀ w ∈ neighbours_from grid0 p,
    (s.grid w.x w.y).g_score ≤ (s.grid p.x p.y).g_score + 1
  came : ∀ p : Point, InBounds p → (s.grid p.x p.y).g_score < INT_MAX → p ≠ start →
    (s.grid p.x p.y).came_from ∈ closed ∧
    (s.grid (s.grid p.x p.y).came_from.x (s.grid p.x p.y).came_from.y).g_score + 1 =
      (s.grid p.x p.y).g_score ∧
    p ∈ neighbours_from grid0 (s.grid p.x p.y).came_from
  goal_open : goal ∉ closed

/-- The cells met when the `came_from` links are followed `k` times from `p`,
listed from the far end of the chain to `p`, without the cell the chain
stops at. -/
def came_from_chain (grid : Grid) : Nat → Point → List Point
  | 0, _ => []
  | k + 1, p => came_from_chain grid k (grid p.x p.y).came_from ++ [p]

/-! ## Notions for the later properties -/

/-- The index pairs at which `neighbours_from` reads `grid`: in each of its
four lines the test `grid[..][..].walkable` is evaluated only when the bounds
test before `&&` has succeeded. -/
def neighbours_from_reads (p : Point) : List Point :=
  (if p.x > 0 then [(⟨p.x - 1, p.y⟩ : Point)] else []) ++
  (if p.y > 0 then [(⟨p.x, p.y - 1⟩ : Point)] else []) ++
  (if p.x < GRID_W - 1 then [(⟨p.x + 1, p.y⟩ : Point)] else []) ++
  (if p.y < GRID_H - 1 then [(⟨p.x, p.y + 1⟩ : Point)] else [])

/-- The points expanded in the first `k` rounds of the loop from state `s`, in
the order in which they are popped. -/
def popped (goal : Point) : Nat → State → List Point
  | 0, _ => []
  | k + 1, s =>
    if s.open_set.length > 0 then
      match get_point_with_lowest_f_score s.grid s.open_set, loop_body goal s with
      | some pos, Round.next s1 => pos :: popped goal k s1
      | _, _ => []
    else []

/-- The state inside a round of the `while` loop that starts in state `s`, after
the first `j` rounds of its `for` loop (after all of them when `j` is at least
`neighbours_count`); `none` when the round does not get to its `for` loop. -/
def for_loop_state (goal : Point) (s : State) (j : Nat) : Option State :=
  match get_point_with_lowest_f_score s.grid s.open_set with
  | none => none
  | some pos =>
    if point_eq pos goal then none
    else
      match remove_from_open_set pos s.open_set with
      | none => none
      | some rest =>
        some (relax_all goal pos { s with open_set := rest }
          ((neighbours_from s.grid pos).take j))

/-- The cell reached from `p` by following the `came_from` links `j` times. -/
def follow_came_from (grid : Grid) : Nat → Point → Point
  | 0, p => p
  | j + 1, p => follow_came_from grid j (grid p.x p.y).came_from

/-- The predecessor/cost relation of the cells other than `start`: a cell is
either untouched (`g_score = INT_MAX`, `came_from = (-1, -1)`) or has a finite
`g_score` and a `came_from` that is a cell of the grid orthogonally adjacent
to it. -/
def PredecessorOk (start : Point) (grid : Grid) : Prop :=
  ∀ p : Point, InBounds p → p ≠ start →
    ((grid p.x p.y).g_score = INT_MAX ∧ (grid p.x p.y).came_from = ⟨-1, -1⟩) ∨
    ((grid p.x p.y).g_score < INT_MAX ∧ InBounds (grid p.x p.y).came_from ∧
      Adjacent (grid p.x p.y).came_from p)

/-! # Properties -/

/-! ## Basic facts -/

theorem point_eq_iff (a b : Point) : point_eq a b = true ↔ a = b := by
  cases a; cases b; simp [point_eq]

theorem point_eq_self (a : Point) : point_eq a a = true := (point_eq_iff a a).2 rfl

theorem grid_set_same (grid : Grid) (x y : Int) (n : Node) : grid.set x y n x y = n := by
  simp [Grid.set]

theorem grid_set_other (grid : Grid) (x y a b : Int) (n : Node) (h : ¬ (a = x ∧ b = y)) :
    grid.set x y n a b = grid a b := by
  simp only [Grid.set]; rw [if_neg h]

theorem wrap_int_eq (v : Int) (h1 : -2147483648 ≤ v) (h2 : v ≤ 2147483647) : wrap_int v = v := by
  unfold wrap_int; omega

/-- On cells of the grid `heuristic` is the Manhattan distance. -/
theorem heuristic_eq (p goal : Point) (hp : InBounds p) (hg : InBounds goal) :
    heuristic p goal = manhattan p goal := by
  unfold InBounds GRID_W GRID_H at hp hg
  unfold heuristic manhattan c_abs
  rw [wrap_int_eq (goal.x - p.x) (by omega) (by omega),
    wrap_int_eq (goal.y - p.y) (by omega) (by omega)]
  have h1 : (if goal.x - p.x < 0 then -(goal.x - p.x) else goal.x - p.x) = |goal.x - p.x| := by
    split_ifs with h
    · rw [abs_of_neg h]
    · rw [abs_of_nonneg (by omega)]
  have h2 : (if goal.y - p.y < 0 then -(goal.y - p.y) else goal.y - p.y) = |goal.y - p.y| := by
    split_ifs with h
    · rw [abs_of_neg h]
    · rw [abs_of_nonneg (by omega)]
  rw [h1, h2]
  have b1 : |goal.x - p.x| ≤ 29 := by rw [abs_le]; constructor <;> omega
  have b2 : |goal.y - p.y| ≤ 14 := by rw [abs_le]; constructor <;> omega
  have n1 := abs_nonneg (goal.x - p.x)
  have n2 := abs_nonneg (goal.y - p.y)
  rw [wrap_int_eq |goal.x - p.x| (by omega) (by omega),
    wrap_int_eq |goal.y - p.y| (by omega) (by omega), wrap_int_eq _ (by omega) (by omega)]

theorem manhattan_bounds (p goal : Point) (hp : InBounds p) (hg : InBounds goal) :
    0 ≤ manhattan p goal ∧ manhattan p goal ≤ 43 := by
  unfold InBounds GRID_W GRID_H at hp hg
  unfold manhattan
  have b1 : |goal.x - p.x| ≤ 29 := by rw [abs_le]; constructor <;> omega
  have b2 : |goal.y - p.y| ≤ 14 := by rw [abs_le]; constructor <;> omega
  have n1 := abs_nonneg (goal.x - p.x)
  have n2 := abs_nonneg (goal.y - p.y)
  omega

theorem manhattan_self (p : Point) : manhattan p p = 0 := by
  unfold manhattan; simp

/-! ## The open set -/

theorem point_ext_iff (p q : Point) : (p.x = q.x ∧ p.y = q.y) ↔ p = q := by
  cases p; cases q; simp

theorem open_set_has_iff (p : Point) (os : List Point) :
    open_set_has p os = true ↔ p ∈ os := by
  induction os with
  | nil => simp [open_set_has]
  | cons q rest ih =>
    unfold open_set_has
    by_cases h : p.x = q.x ∧ p.y = q.y
    · have : p = q := (point_ext_iff p q).1 h
      simp [h, this]
    · have : p ≠ q := fun e => h ((point_ext_iff p q).2 e)
      simp [h, this, ih]

theorem mem_add_to_open_set (p q : Point) (os : List Point) :
    q ∈ add_to_open_set p os ↔ q = p ∨ q ∈ os := by
  unfold add_to_open_set
  by_cases h : open_set_has p os = true
  · have hp : p ∈ os := (open_set_has_iff p os).1 h
    rw [if_pos h]
    constructor
    · intro hq; exact Or.inr hq
    · rintro (rfl | hq)
      · exact hp
      · exact hq
  · rw [if_neg h]
    simp [or_comm]

theorem nodup_add_to_open_set (p : Point) (os : List Point) (hnd : os.Nodup) :
    (add_to_open_set p os).Nodup := by
  unfold add_to_open_set
  by_cases h : open_set_has p os = true
  · rw [if_pos h]; exact hnd
  · have hp : p ∉ os := fun hm => h ((open_set_has_iff p os).2 hm)
    rw [if_neg h, List.nodup_append]
    refine ⟨hnd, List.nodup_singleton p, ?_⟩
    intro a ha hb
    simp at hb
    subst hb
    exact hp ha

/-- Claim C8: `add_to_open_set p` is insert-if-absent.  If some entry equals `p`
in both coordinates the open set is unchanged; otherwise `p` is stored at index
`open_set_count`, the count grows by one and the earlier entries keep their
places.  In both cases `p` is a member afterwards and the membership of every
other point is unchanged. -/
theorem add_to_open_set_insert_if_absent (p : Point) (open_set : List Point) :
    ((∃ q ∈ open_set, p.x = q.x ∧ p.y = q.y) → add_to_open_set p open_set = open_set) ∧
    ((¬ ∃ q ∈ open_set, p.x = q.x ∧ p.y = q.y) →
        (add_to_open_set p open_set).length = open_set.length + 1 ∧
        (add_to_open_set p open_set)[open_set.length]? = some p ∧
        ∀ i, i < open_set.length → (add_to_open_set p open_set)[i]? = open_set[i]?) ∧
    p ∈ add_to_open_set p open_set ∧
    ∀ q, q ≠ p → (q ∈ add_to_open_set p open_set ↔ q ∈ open_set) := by
  refine ⟨?_, ?_, ?_, ?_⟩
  · rintro ⟨q, hq, hx⟩
    have hp : p ∈ open_set := by rw [(point_ext_iff p q).1 hx]; exact hq
    unfold add_to_open_set
    rw [(open_set_has_iff p open_set).2 hp]; rfl
  · intro hno
    have hp : ¬ open_set_has p open_set = true := by
      intro h
      exact hno ⟨p, (open_set_has_iff p open_set).1 h, rfl, rfl⟩
    unfold add_to_open_set
    rw [if_neg hp]
    refine ⟨by simp, by simp, ?_⟩
    intro i hi
    simp [List.getElem?_append_left hi]
  · exact (mem_add_to_open_set p p open_set).2 (Or.inl rfl)
  · intro q hq
    rw [mem_add_to_open_set]
    simp [hq]


/-- What the scan of `get_point_with_lowest_f_score` returns. -/
theorem lowest_f_scan_spec (grid : Grid) (os : List Point) :
    ∀ (lo : Int) (best : Point),
    ((∀ q ∈ os, lo ≤ (grid q.x q.y).f_score) ∧ lowest_f_scan grid os lo best = (lo, best)) ∨
    (∃ (i : Nat) (b : Point), os[i]? = some b ∧ lowest_f_scan grid os lo best = ((grid b.x b.y).f_score, b) ∧
      (grid b.x b.y).f_score < lo ∧ (∀ q ∈ os, (grid b.x b.y).f_score ≤ (grid q.x q.y).f_score) ∧
      ∀ (j : Nat) (q : Point), j < i → os[j]? = some q → (grid b.x b.y).f_score < (grid q.x q.y).f_score) := by
  induction os with
  | nil => intro lo best; left; simp [lowest_f_scan]
  | cons c rest ih =>
    intro lo best
    unfold lowest_f_scan
    by_cases hc : (grid c.x c.y).f_score < lo
    · rw [if_pos hc]
      rcases ih (grid c.x c.y).f_score c with ⟨hall, heq⟩ | ⟨i, b, hib, heq, hlt, hmin, hfirst⟩
      · right
        refine ⟨0, c, by simp, heq, hc, ?_, ?_⟩
        · intro q hq
          rcases List.mem_cons.1 hq with rfl | hq
          · exact le_refl _
          · exact hall q hq
        · intro j q hj; omega
      · right
        refine ⟨i + 1, b, by simpa using hib, heq, by omega, ?_, ?_⟩
        · intro q hq
          rcases List.mem_cons.1 hq with rfl | hq
          · omega
          · exact hmin q hq
        · intro j q hj hjq
          cases j with
          | zero => simp at hjq; subst hjq; exact hlt
          | succ j => exact hfirst j q (by omega) (by simpa using hjq)
    · rw [if_neg hc]
      rcases ih lo best with ⟨hall, heq⟩ | ⟨i, b, hib, heq, hlt, hmin, hfirst⟩
      · left
        refine ⟨?_, heq⟩
        intro q hq
        rcases List.mem_cons.1 hq with rfl | hq
        · omega
        · exact hall q hq
      · right
        refine ⟨i + 1, b, by simpa using hib, heq, hlt, ?_, ?_⟩
        · intro q hq
          rcases List.mem_cons.1 hq with rfl | hq
          · omega
          · exact hmin q hq
        · intro j q hj hjq
          cases j with
          | zero => simp at hjq; subst hjq; omega
          | succ j => exact hfirst j q (by omega) (by simpa using hjq)

/-- The popped point when some entry of the open set has `f_score < INT_MAX`. -/
theorem lowest_f_some (grid : Grid) (os : List Point) (hb : ∀ q ∈ os, InBounds q)
    (hex : ∃ q ∈ os, (grid q.x q.y).f_score < INT_MAX) :
    ∃ (i : Nat) (b : Point), os[i]? = some b ∧ get_point_with_lowest_f_score grid os = some b ∧
      (∀ q ∈ os, (grid b.x b.y).f_score ≤ (grid q.x q.y).f_score) ∧
      ∀ (j : Nat) (q : Point), j < i → os[j]? = some q → (grid b.x b.y).f_score < (grid q.x q.y).f_score := by
  rcases lowest_f_scan_spec grid os INT_MAX ⟨-1, -1⟩ with ⟨hall, _⟩ | ⟨i, b, hib, heq, _, hmin, hfirst⟩
  · rcases hex with ⟨q, hq, hlt⟩
    have := hall q hq
    omega
  · refine ⟨i, b, hib, ?_, hmin, hfirst⟩
    have hbm : b ∈ os := List.getElem?_mem hib
    have hbb := hb b hbm
    unfold InBounds at hbb
    unfold get_point_with_lowest_f_score
    simp only [heq]
    rw [if_pos (by omega)]

/-- The assertion fails when no entry of the open set has `f_score < INT_MAX`. -/
theorem lowest_f_none (grid : Grid) (os : List Point)
    (hall : ∀ q ∈ os, INT_MAX ≤ (grid q.x q.y).f_score) :
    get_point_with_lowest_f_score grid os = none := by
  rcases lowest_f_scan_spec grid os INT_MAX ⟨-1, -1⟩ with ⟨_, heq⟩ | ⟨i, b, hib, _, hlt, _, _⟩
  · unfold get_point_with_lowest_f_score
    simp only [heq]
    rw [if_neg (by decide)]
  · have := hall b (List.getElem?_mem hib)
    omega

/-- Claim C9, amended: on an open set of in-bounds points in which some entry has
`f_score < INT_MAX`, `get_point_with_lowest_f_score` returns an entry whose
`f_score` is at most that of every entry, and it is the first such entry in
array order.  Its assertion fails exactly when no entry has
`f_score < INT_MAX`, which includes the empty open set. -/
theorem get_point_with_lowest_f_score_spec (grid : Grid) (open_set : List Point)
    (hb : ∀ q ∈ open_set, InBounds q) :
    ((∃ q ∈ open_set, (grid q.x q.y).f_score < INT_MAX) →
      ∃ (i : Nat) (b : Point), open_set[i]? = some b ∧ get_point_with_lowest_f_score grid open_set = some b ∧
        (∀ q ∈ open_set, (grid b.x b.y).f_score ≤ (grid q.x q.y).f_score) ∧
        ∀ (j : Nat) (q : Point), j < i → open_set[j]? = some q → (grid b.x b.y).f_score < (grid q.x q.y).f_score) ∧
    (get_point_with_lowest_f_score grid open_set = none ↔
      ∀ q ∈ open_set, INT_MAX ≤ (grid q.x q.y).f_score) := by
  refine ⟨lowest_f_some grid open_set hb, ?_, lowest_f_none grid open_set⟩
  intro hnone q hq
  by_contra hlt
  rcases lowest_f_some grid open_set hb ⟨q, hq, by omega⟩ with ⟨i, b, _, hsome, _⟩
  rw [hnone] at hsome
  cases hsome


theorem find_slot_none (p : Point) (os : List Point) :
    ∀ i, find_slot p os i = none ↔ p ∉ os := by
  induction os with
  | nil => intro i; simp [find_slot]
  | cons q rest ih =>
    intro i
    unfold find_slot
    by_cases h : p.x = q.x ∧ p.y = q.y
    · have : p = q := (point_ext_iff p q).1 h
      rw [if_pos h]; simp [this]
    · have : p ≠ q := fun e => h ((point_ext_iff p q).2 e)
      rw [if_neg h, ih]; simp [this]

theorem find_slot_some (p : Point) (os : List Point) :
    ∀ i k, find_slot p os i = some k →
      ∃ a b, os = a ++ p :: b ∧ p ∉ a ∧ k = i + a.length := by
  induction os with
  | nil => intro i k h; simp [find_slot] at h
  | cons q rest ih =>
    intro i k h
    unfold find_slot at h
    by_cases hq : p.x = q.x ∧ p.y = q.y
    · have e : p = q := (point_ext_iff p q).1 hq
      rw [if_pos hq] at h
      refine ⟨[], rest, by simp [e], by simp, ?_⟩
      simp at h; simp [h]
    · have e : p ≠ q := fun e => hq ((point_ext_iff p q).2 e)
      rw [if_neg hq] at h
      rcases ih (i + 1) k h with ⟨a, b, hab, hpa, hk⟩
      refine ⟨q :: a, b, by simp [hab], by simp [e, hpa], ?_⟩
      simp; omega

theorem find_slot_append (p : Point) (a b : List Point) (hpa : p ∉ a) :
    find_slot p (a ++ p :: b) 0 = some a.length := by
  cases hf : find_slot p (a ++ p :: b) 0 with
  | none =>
    have := (find_slot_none p (a ++ p :: b) 0).1 hf
    simp at this
  | some k =>
    rcases find_slot_some p _ 0 k hf with ⟨a', b', hab, hpa', hk⟩
    have hlen : a'.length = a.length := by
      rcases Nat.lt_trichotomy a'.length a.length with hlt | heq | hgt
      · exfalso
        have h1 : (a ++ p :: b)[a'.length]? = some p := by
          rw [hab, List.getElem?_append_right (le_refl _)]; simp
        rw [List.getElem?_append_left hlt] at h1
        exact hpa (List.getElem?_mem h1)
      · exact heq
      · exfalso
        have h1 : (a' ++ p :: b')[a.length]? = some p := by
          rw [← hab, List.getElem?_append_right (le_refl _)]; simp
        rw [List.getElem?_append_left hgt] at h1
        exact hpa' (List.getElem?_mem h1)
    simp [hk, hlen]

/-- Removing the last entry of the open set. -/
theorem remove_from_open_set_last (p : Point) (a : List Point) (hpa : p ∉ a) :
    remove_from_open_set p (a ++ [p]) = some a := by
  unfold remove_from_open_set
  rw [find_slot_append p a [] hpa]
  simp

/-- Removing an entry that is not the last one: the last entry `l` takes its slot. -/
theorem remove_from_open_set_inner (p l : Point) (a b : List Point) (hpa : p ∉ a) :
    remove_from_open_set p (a ++ p :: (b ++ [l])) = some (a ++ l :: b) := by
  unfold remove_from_open_set
  rw [find_slot_append p a _ hpa]
  have hl : (a ++ p :: (b ++ [l])).getD ((a ++ p :: (b ++ [l])).length - 1) p = l := by
    have : a ++ p :: (b ++ [l]) = (a ++ p :: b) ++ [l] := by simp
    rw [this, List.getD_eq_getElem?_getD, List.getElem?_append_right (by simp)]
    simp
  simp only []
  rw [hl]
  simp [List.dropLast_append_cons]
  rw [← List.cons_append, List.dropLast_concat]

/-- The effect of a successful `remove_from_open_set`, entry by entry and as a
rearrangement of the other entries. -/
theorem remove_from_open_set_split (p : Point) (a b : List Point) (hpa : p ∉ a) :
    ∃ rest, remove_from_open_set p (a ++ p :: b) = some rest ∧ rest.Perm (a ++ b) ∧
      ∀ j : Nat, j < rest.length →
        rest[j]? = if j = a.length then (a ++ p :: b).getLast? else (a ++ p :: b)[j]? := by
  rcases List.eq_nil_or_concat b with rfl | ⟨b', l, rfl⟩
  · refine ⟨a, remove_from_open_set_last p a hpa, by simp, ?_⟩
    intro j hj
    rw [if_neg (by omega), List.getElem?_append_left hj]
  · rw [List.concat_eq_append]
    refine ⟨a ++ l :: b', remove_from_open_set_inner p l a b' hpa, ?_, ?_⟩
    · exact List.Perm.append_left a (List.perm_append_singleton l b').symm
    · intro j hj
      by_cases hja : j = a.length
      · rw [if_pos hja, hja, List.getElem?_append_right (le_refl _)]
        have : a ++ p :: (b' ++ [l]) = (a ++ p :: b') ++ [l] := by simp
        rw [this, List.getLast?_append]
        simp
      · rw [if_neg hja]
        rcases Nat.lt_or_ge j a.length with hlt | hge
        · rw [List.getElem?_append_left hlt, List.getElem?_append_left hlt]
        · rw [List.getElem?_append_right hge, List.getElem?_append_right hge]
          have : j - a.length = (j - a.length - 1) + 1 := by omega
          rw [this]
          simp only [List.getElem?_cons_succ]
          simp at hj
          rw [List.getElem?_append_left (by omega)]

/-- What `remove_from_open_set` leaves when the open set has no duplicates. -/
theorem remove_from_open_set_mem (p : Point) (os : List Point) (hnd : os.Nodup) (hp : p ∈ os) :
    ∃ rest, remove_from_open_set p os = some rest ∧ rest.Nodup ∧
      rest.length + 1 = os.length ∧ ∀ q, q ∈ rest ↔ (q ∈ os ∧ q ≠ p) := by
  rcases List.append_of_mem hp with ⟨a, b, rfl⟩
  have hpa : p ∉ a := fun h => (List.nodup_append.1 hnd).2.2 h (List.mem_cons_self p b)
  have hpb : p ∉ b := (List.nodup_cons.1 (List.nodup_append.1 hnd).2.1).1
  have hnd' : (a ++ b).Nodup := by
    have := hnd
    rw [List.nodup_append] at this ⊢
    refine ⟨this.1, (List.nodup_cons.1 this.2.1).2, ?_⟩
    intro x hxa hxb
    exact this.2.2 hxa (List.mem_cons_of_mem p hxb)
  rcases remove_from_open_set_split p a b hpa with ⟨rest, hrest, hperm, _⟩
  refine ⟨rest, hrest, hperm.nodup_iff.2 hnd', ?_, ?_⟩
  · rw [hperm.length_eq]; simp; omega
  · intro q
    rw [hperm.mem_iff]
    simp only [List.mem_append, List.mem_cons]
    constructor
    · rintro (h | h)
      · exact ⟨Or.inl h, fun e => hpa (e ▸ h)⟩
      · exact ⟨Or.inr (Or.inr h), fun e => hpb (e ▸ h)⟩
    · rintro ⟨h | h | h, hne⟩
      · exact Or.inl h
      · exact absurd h hne
      · exact Or.inr h

/-- Claim C10: on a duplicate-free open set, `remove_from_open_set p` with `p` a
member leaves an open set that does not contain `p`, contains every other
member exactly once and nothing else, is shorter by exactly one, and differs
from the old one only in that the last entry now sits in the slot of `p`.
The procedure aborts exactly when `p` is not a member. -/
theorem remove_from_open_set_spec (p : Point) (open_set : List Point) (hnd : open_set.Nodup) :
    (p ∈ open_set → ∃ rest, remove_from_open_set p open_set = some rest ∧
      p ∉ rest ∧
      (∀ q, q ∈ open_set → q ≠ p → rest.count q = 1) ∧
      (∀ q, q ∈ rest → q ∈ open_set) ∧
      rest.length + 1 = open_set.length ∧
      ∃ i : Nat, open_set[i]? = some p ∧
        ∀ j : Nat, j < rest.length →
          rest[j]? = if j = i then open_set.getLast? else open_set[j]?) ∧
    (remove_from_open_set p open_set = none ↔ p ∉ open_set) := by
  constructor
  · intro hp
    rcases remove_from_open_set_mem p open_set hnd hp with ⟨rest, hrest, hnd', hlen, hmem⟩
    rcases List.append_of_mem hp with ⟨a, b, hab⟩
    have hpa : p ∉ a := by
      intro h
      rw [hab] at hnd
      exact (List.nodup_append.1 hnd).2.2 h (List.mem_cons_self p b)
    rcases remove_from_open_set_split p a b hpa with ⟨rest', hrest', _, hidx⟩
    rw [← hab, hrest] at hrest'
    cases hrest'
    refine ⟨rest, hrest, ?_, ?_, ?_, hlen, a.length, ?_, ?_⟩
    · intro h; exact ((hmem p).1 h).2 rfl
    · intro q hq hqp
      exact List.count_eq_one_of_mem hnd' ((hmem q).2 ⟨hq, hqp⟩)
    · intro q hq; exact ((hmem q).1 hq).1
    · rw [hab, List.getElem?_append_right (le_refl _)]; simp
    · rw [hab]; exact hidx
  · unfold remove_from_open_set
    cases hf : find_slot p open_set 0 with
    | none => simp [(find_slot_none p open_set 0).1 hf]
    | some k =>
      simp only [reduceCtorEq, false_iff, not_not]
      by_contra hp
      have := (find_slot_none p open_set 0).2 hp
      rw [hf] at this
      cases this

/-! ## The loop of `main` -/

/-- The state at loop entry. -/
theorem init_search_grid_start (grid : Grid) (start goal : Point) :
    (init_search grid start goal).grid start.x start.y =
      { grid start.x start.y with g_score := 0, f_score := heuristic start goal } := by
  simp [init_search, Grid.set]

theorem init_search_grid_other (grid : Grid) (start goal p : Point) (h : p ≠ start) :
    (init_search grid start goal).grid p.x p.y = grid p.x p.y := by
  have : ¬ (p.x = start.x ∧ p.y = start.y) := by
    intro e; apply h; cases p; cases start; simp at e; simp [e]
  simp [init_search, Grid.set, this]

theorem init_search_open (grid : Grid) (start goal : Point) :
    (init_search grid start goal).open_set = [start] := by
  simp [init_search, add_to_open_set, open_set_has]

/-- Claim C4: when `start == goal` is in bounds and the budget is at least 1, the
search takes its success branch in the first round, in the state in which the
loop was entered: nothing has been expanded (the open set is still `[start]`),
`g_score` of the goal is 0 and `reconstruct_path` walks the one-cell sequence
`[start]` without touching the grid. -/
theorem search_start_eq_goal (grid : Grid) (start : Point) (budget : Int)
    (hs : InBounds start) (hb : 1 ≤ budget) :
    search grid start start budget = Outcome.found (init_search grid start start) ∧
    (init_search grid start start).open_set = [start] ∧
    ((init_search grid start start).grid start.x start.y).g_score = 0 ∧
    ∀ fuel, reconstruct_path fuel (init_search grid start start).grid start start =
      some ((init_search grid start start).grid, [start]) := by
  have hopen := init_search_open grid start start
  have hnode := init_search_grid_start grid start start
  have hh : heuristic start start = 0 := by
    rw [heuristic_eq start start hs hs, manhattan_self]
  refine ⟨?_, hopen, by rw [hnode], ?_⟩
  · obtain ⟨n, hn⟩ : ∃ n, budget.toNat = n + 1 := ⟨budget.toNat - 1, by omega⟩
    have hpop : get_point_with_lowest_f_score (init_search grid start start).grid
        (init_search grid start start).open_set = some start := by
      unfold InBounds at hs
      rw [hopen]
      unfold get_point_with_lowest_f_score
      have h0 : (0 : Int) < INT_MAX := by decide
      simp only [lowest_f_scan, hnode, hh, h0, if_true]
      rw [if_pos (by omega)]
    unfold search
    rw [hn]
    unfold search_loop
    rw [if_pos (by rw [hopen]; simp; omega)]
    unfold loop_body
    rw [hpop]
    simp only [point_eq_self, if_true]
  · intro fuel
    unfold reconstruct_path
    cases fuel <;> simp [reconstruct_loop, point_eq_self]

/-- With no budget left the loop body is not entered. -/
theorem search_loop_no_budget (goal : Point) (fuel : Nat) (max_steps : Int) (s : State)
    (h : max_steps ≤ 0) : search_loop goal fuel max_steps s = Outcome.failed max_steps s := by
  cases fuel <;> (unfold search_loop; rw [if_neg (by omega)])

/-- With an empty open set the loop body is not entered. -/
theorem search_loop_empty (goal : Point) (fuel : Nat) (max_steps : Int) (s : State)
    (h : s.open_set = []) : search_loop goal fuel max_steps s = Outcome.failed max_steps s := by
  cases fuel <;> (unfold search_loop; rw [if_neg (by rw [h]; simp)])

theorem search_loop_succ (goal : Point) (fuel : Nat) (max_steps : Int) (s : State) :
    search_loop goal (fuel + 1) max_steps s =
      if s.open_set.length > 0 ∧ max_steps > 0 then
        match loop_body goal s with
        | Round.found => Outcome.found s
        | Round.assert_failed => Outcome.assert_failed
        | Round.remove_failed => Outcome.remove_failed
        | Round.next s1 => search_loop goal fuel (max_steps - 1) s1
      else Outcome.failed max_steps s := rfl

/-- The loop follows the budget-free rounds as long as the budget lasts. -/
theorem search_loop_rounds (goal : Point) (k : Nat) :
    ∀ (fuel : Nat) (max_steps : Int) (s sk : State), rounds goal k s = some sk →
      (k : Int) ≤ max_steps →
      search_loop goal (fuel + k) max_steps s = search_loop goal fuel (max_steps - k) sk := by
  induction k with
  | zero =>
    intro fuel max_steps s sk h _
    simp [rounds] at h
    subst h
    simp
  | succ k ih =>
    intro fuel max_steps s sk h hms
    unfold rounds at h
    by_cases ho : s.open_set.length > 0
    · rw [if_pos ho] at h
      rw [show fuel + (k + 1) = (fuel + k) + 1 from by omega, search_loop_succ,
        if_pos ⟨ho, by omega⟩]
      cases hb : loop_body goal s with
      | next s1 =>
        rw [hb] at h
        simp only [] at h ⊢
        have e : max_steps - 1 - (k : Int) = max_steps - ((k + 1 : Nat) : Int) := by
          push_cast; ring
        rw [ih fuel (max_steps - 1) s1 sk h (by omega), e]
      | found => rw [hb] at h; cases h
      | assert_failed => rw [hb] at h; cases h
      | remove_failed => rw [hb] at h; cases h
    · rw [if_neg ho] at h; cases h

/-- How the loop can end in failure: `max_steps` never drops below zero, and
the loop is left either with no budget or with an empty open set. -/
theorem search_loop_failed (goal : Point) :
    ∀ (fuel : Nat) (max_steps : Int) (s : State) (m : Int) (s1 : State),
      0 ≤ max_steps → search_loop goal fuel max_steps s = Outcome.failed m s1 →
      0 ≤ m ∧ (m = 0 ∨ s1.open_set = []) := by
  intro fuel
  induction fuel with
  | zero =>
    intro max_steps s m s1 h0 h
    unfold search_loop at h
    split_ifs at h with hc
    cases h
    refine ⟨h0, ?_⟩
    by_cases hm : max_steps = 0
    · exact Or.inl hm
    · right
      have : ¬ s.open_set.length > 0 := fun ho => hc ⟨ho, by omega⟩
      exact List.length_eq_zero.1 (by omega)
  | succ fuel ih =>
    intro max_steps s m s1 h0 h
    unfold search_loop at h
    split_ifs at h with hc
    · cases hb : loop_body goal s with
      | next s2 =>
        rw [hb] at h
        exact ih (max_steps - 1) s2 m s1 (by omega) h
      | found => rw [hb] at h; cases h
      | assert_failed => rw [hb] at h; cases h
      | remove_failed => rw [hb] at h; cases h
    · cases h
      refine ⟨h0, ?_⟩
      by_cases hm : max_steps = 0
      · exact Or.inl hm
      · right
        have : ¬ s.open_set.length > 0 := fun ho => hc ⟨ho, by omega⟩
        exact List.length_eq_zero.1 (by omega)

/-- The fuel that `search` passes is enough. -/
theorem search_loop_fuel (goal : Point) :
    ∀ (fuel : Nat) (max_steps : Int) (s : State), max_steps.toNat ≤ fuel →
      search_loop goal fuel max_steps s ≠ Outcome.out_of_fuel := by
  intro fuel
  induction fuel with
  | zero =>
    intro max_steps s hf
    unfold search_loop
    rw [if_neg (by omega)]
    intro h; cases h
  | succ fuel ih =>
    intro max_steps s hf
    unfold search_loop
    split_ifs with hc
    · cases hb : loop_body goal s with
      | next s2 => exact ih (max_steps - 1) s2 (by omega)
      | found => intro h; cases h
      | assert_failed => intro h; cases h
      | remove_failed => intro h; cases h
    · intro h; cases h

/-- Claim C5, amended: for a positive budget, when the loop is left without
success `max_steps` is never negative; if it is still positive the open set is
empty and the report is the plain "Failed to find a path." (`NoPathFound`);
"Bailed out." (`BudgetExceeded`) is reported exactly when `max_steps` is 0. -/
theorem search_failure_report (grid : Grid) (start goal : Point) (budget m : Int) (s : State)
    (hb : 0 < budget) (h : search grid start goal budget = Outcome.failed m s) :
    0 ≤ m ∧
    (0 < m → s.open_set = [] ∧ report (search grid start goal budget) = Report.NoPathFound) ∧
    (m = 0 ↔ report (search grid start goal budget) = Report.BudgetExceeded) := by
  have h1 := search_loop_failed goal budget.toNat budget (init_search grid start goal) m s
    (by omega) h
  rw [h]
  refine ⟨h1.1, ?_, ?_⟩
  · intro hm
    rcases h1.2 with h0 | h0
    · omega
    · refine ⟨h0, ?_⟩
      simp only [report]
      rw [if_neg (by omega)]
  · simp only [report]
    constructor
    · intro hm; rw [if_pos hm]
    · intro hr
      by_contra hm
      rw [if_neg hm] at hr
      cases hr

/-- Claim C6: if the search needs more than `k` rounds (`k ≥ 1`) to pop the goal or
to empty the open set, then with budget `k` it runs exactly those `k` rounds,
leaves the loop with `max_steps = 0` and reports `BudgetExceeded`
("Bailed out."), which is neither `NoPathFound` nor `Success`. -/
theorem search_budget_exceeded (grid : Grid) (start goal : Point) (k : Nat)
    (_hk : 1 ≤ k) (hmore : needs_more_rounds goal k (init_search grid start goal) = true) :
    ∃ sk, rounds goal k (init_search grid start goal) = some sk ∧
      search grid start goal k = Outcome.failed 0 sk ∧
      report (search grid start goal k) = Report.BudgetExceeded ∧
      report (search grid start goal k) ≠ Report.NoPathFound ∧
      report (search grid start goal k) ≠ Report.Success := by
  unfold needs_more_rounds at hmore
  cases hr : rounds goal k (init_search grid start goal) with
  | none => rw [hr] at hmore; cases hmore
  | some sk =>
    have hs : search grid start goal k = Outcome.failed 0 sk := by
      unfold search
      have := search_loop_rounds goal k 0 k (init_search grid start goal) sk hr (le_refl _)
      simp only [Int.toNat_ofNat, zero_add, sub_self] at this ⊢
      rw [this]
      exact search_loop_no_budget goal 0 0 sk (le_refl _)
    refine ⟨sk, rfl, hs, ?_, ?_, ?_⟩ <;> rw [hs] <;> simp [report]

/-- Claim C7, amended: for a budget `≤ 0` the loop body is never run, so the loop
is left in the state in which it was entered (the start node initialised and
in the open set); the report is `BudgetExceeded` for budget 0 and
`NoPathFound` for a negative budget. -/
theorem search_nonpositive_budget (grid : Grid) (start goal : Point) (budget : Int)
    (hb : budget ≤ 0) :
    search grid start goal budget = Outcome.failed budget (init_search grid start goal) ∧
    report (search grid start goal budget) =
      (if budget = 0 then Report.BudgetExceeded else Report.NoPathFound) := by
  have hs : search grid start goal budget = Outcome.failed budget (init_search grid start goal) :=
    search_loop_no_budget goal _ budget _ hb
  refine ⟨hs, ?_⟩
  rw [hs]
  rfl


/-! ## Neighbours and routes -/

/-- The neighbours stored for a cell of the grid are exactly the cells that are
in bounds, walkable and orthogonally adjacent to it. -/
theorem mem_neighbours_from (grid : Grid) (p w : Point) (hp : InBounds p) :
    w ∈ neighbours_from grid p ↔
      (Adjacent p w ∧ InBounds w ∧ (grid w.x w.y).walkable = true) := by
  unfold InBounds GRID_W GRID_H at *
  unfold neighbours_from Adjacent GRID_W GRID_H
  cases w with
  | mk wx wy =>
  simp only [List.mem_append]
  constructor
  · rintro (((h | h) | h) | h)
    all_goals
      split_ifs at h with hc
      · simp only [List.mem_singleton, Point.mk.injEq] at h
        obtain ⟨rfl, rfl⟩ := h
        refine ⟨?_, ?_, hc.2⟩
        · first
            | exact Or.inr ⟨rfl, Or.inl (by omega)⟩
            | exact Or.inl ⟨rfl, Or.inl (by omega)⟩
            | exact Or.inr ⟨rfl, Or.inr (by omega)⟩
            | exact Or.inl ⟨rfl, Or.inr (by omega)⟩
        · omega
      · simp at h
  · rintro ⟨hadj, hb, hwalk⟩
    rcases hadj with ⟨hx, hy | hy⟩ | ⟨hy, hx | hx⟩
    · -- w = (p.x, p.y - 1)
      left; left; right
      have e : wy = p.y - 1 := by omega
      subst e; subst hx
      rw [if_pos ⟨by omega, hwalk⟩]; simp
    · right
      have e : wy = p.y + 1 := by omega
      subst e; subst hx
      rw [if_pos ⟨by omega, hwalk⟩]; simp
    · left; left; left
      have e : wx = p.x - 1 := by omega
      subst e; subst hy
      rw [if_pos ⟨by omega, hwalk⟩]; simp
    · left; right
      have e : wx = p.x + 1 := by omega
      subst e; subst hy
      rw [if_pos ⟨by omega, hwalk⟩]; simp

/-- The stored neighbours depend on the `walkable` fields only. -/
theorem neighbours_from_congr (g1 g2 : Grid) (p : Point)
    (h : ∀ x y, (g1 x y).walkable = (g2 x y).walkable) :
    neighbours_from g1 p = neighbours_from g2 p := by
  unfold neighbours_from
  simp only [h]

theorem not_adjacent_self (p : Point) : ¬ Adjacent p p := by
  unfold Adjacent; omega

/-- A step to an adjacent cell lowers the Manhattan distance by at most 1. -/
theorem manhattan_adjacent (a c goal : Point) (h : Adjacent a c) :
    manhattan a goal ≤ manhattan c goal + 1 := by
  unfold Adjacent at h
  unfold manhattan
  rcases abs_cases (goal.x - a.x) with ⟨e1, _⟩ | ⟨e1, _⟩ <;>
  rcases abs_cases (goal.y - a.y) with ⟨e2, _⟩ | ⟨e2, _⟩ <;>
  rcases abs_cases (goal.x - c.x) with ⟨e3, _⟩ | ⟨e3, _⟩ <;>
  rcases abs_cases (goal.y - c.y) with ⟨e4, _⟩ | ⟨e4, _⟩ <;>
  omega

/-- Along a route the Manhattan distance to the goal drops by at most the
number of steps. -/
theorem manhattan_route (grid : Grid) (goal : Point) (moves : List Point) :
    ∀ a, route_from grid a moves →
      manhattan a goal ≤ manhattan (route_end a moves) goal + moves.length := by
  induction moves with
  | nil => intro a _; simp [route_end]
  | cons c rest ih =>
    intro a h
    have h1 := manhattan_adjacent a c goal h.1
    have h2 := ih c h.2.2.2
    simp only [route_end, List.length_cons]
    push_cast
    omega

/-- A route can be prolonged by one step. -/
theorem route_from_snoc (grid : Grid) (c : Point) (moves : List Point) :
    ∀ a, route_from grid a moves → Adjacent (route_end a moves) c → InBounds c →
      (grid c.x c.y).walkable = true →
      route_from grid a (moves ++ [c]) ∧ route_end a (moves ++ [c]) = c := by
  induction moves with
  | nil =>
    intro a _ hadj hb hw
    exact ⟨⟨hadj, hb, hw, trivial⟩, rfl⟩
  | cons d rest ih =>
    intro a h hadj hb hw
    have := ih d h.2.2.2 hadj hb hw
    exact ⟨⟨h.1, h.2.1, h.2.2.1, this.1⟩, this.2⟩

/-- The cells reached by a route are in bounds. -/
theorem route_end_in_bounds (grid : Grid) (moves : List Point) :
    ∀ a, InBounds a → route_from grid a moves → InBounds (route_end a moves) := by
  induction moves with
  | nil => intro a ha _; exact ha
  | cons d rest ih =>
    intro a _ h
    exact ih d h.2.1 h.2.2.2

/-- A duplicate-free list of cells of the grid has at most `GRID_W * GRID_H`
entries. -/
theorem in_bounds_nodup_length (l : List Point) (hnd : l.Nodup) (hb : ∀ p ∈ l, InBounds p) :
    (l.length : Int) ≤ MAX_NODE_COUNT := by
  have hinj : Function.Injective (fun p : Point => (p.x, p.y)) := by
    intro p q h
    cases p; cases q; simp at h; simp [h]
  have hnd2 : (l.map (fun p : Point => (p.x, p.y))).Nodup := hnd.map hinj
  have hsub : (l.map (fun p : Point => (p.x, p.y))).toFinset ⊆
      Finset.Icc (0 : Int) 29 ×ˢ Finset.Icc (0 : Int) 14 := by
    intro a ha
    simp only [List.mem_toFinset, List.mem_map] at ha
    rcases ha with ⟨p, hp, rfl⟩
    have := hb p hp
    unfold InBounds GRID_W GRID_H at this
    simp only [Finset.mem_product, Finset.mem_Icc]
    omega
  have hcard := Finset.card_le_card hsub
  rw [List.toFinset_card_of_nodup hnd2, List.length_map, Finset.card_product] at hcard
  simp only [Int.card_Icc] at hcard
  have : MAX_NODE_COUNT = 450 := by decide
  rw [this]
  have h2 : l.length ≤ 450 := by simpa using hcard
  exact_mod_cast h2

/-! ## Relaxation -/

/-- One relaxation, with the machine arithmetic resolved. -/
theorem relax_eq (goal n w : Point) (t : State) (G : Int) (hgoal : InBounds goal)
    (hw : InBounds w) (hpos : (t.grid w.x w.y).pos = w)
    (hG : (t.grid n.x n.y).g_score = G) (h0 : 0 ≤ G) (h1 : G ≤ 1000) :
    relax goal n t w =
      if G + 1 < (t.grid w.x w.y).g_score then
        { grid := t.grid.set w.x w.y
            { t.grid w.x w.y with
              came_from := n, g_score := G + 1, f_score := G + 1 + manhattan w goal }
          open_set := add_to_open_set w t.open_set }
      else t := by
  have hm := manhattan_bounds w goal hw hgoal
  unfold relax
  simp only [hG, hpos, heuristic_eq w goal hw hgoal]
  rw [wrap_int_eq (G + 1) (by omega) (by omega),
    wrap_int_eq (G + 1 + manhattan w goal) (by omega) (by omega)]

theorem point_ne_iff (p q : Point) : ¬ (p.x = q.x ∧ p.y = q.y) ↔ p ≠ q := by
  rw [point_ext_iff]

/-- The effect of the `for` loop over the neighbours of the expanded point `n`. -/
theorem relax_all_spec (goal n : Point) (G : Int) (hgoal : InBounds goal)
    (h0 : 0 ≤ G) (h1 : G ≤ 1000) (ws : List Point) :
    ∀ (t : State), (∀ p, InBounds p → (t.grid p.x p.y).pos = p) →
      (t.grid n.x n.y).g_score = G → (∀ w ∈ ws, InBounds w ∧ w ≠ n) →
      (∀ p : Point, (relax_all goal n t ws).grid p.x p.y =
        if p ∈ ws ∧ G + 1 < (t.grid p.x p.y).g_score then
          { t.grid p.x p.y with
            came_from := n, g_score := G + 1, f_score := G + 1 + manhattan p goal }
        else t.grid p.x p.y) ∧
      (∀ q, q ∈ (relax_all goal n t ws).open_set ↔
        (q ∈ t.open_set ∨ (q ∈ ws ∧ G + 1 < (t.grid q.x q.y).g_score))) ∧
      (t.open_set.Nodup → (relax_all goal n t ws).open_set.Nodup) := by
  induction ws with
  | nil =>
    intro t _ _ _
    simp [relax_all]
  | cons w rest ih =>
    intro t hpos hG hws
    have hw := hws w (List.mem_cons_self w rest)
    have hrest : ∀ v ∈ rest, InBounds v ∧ v ≠ n := fun v hv => hws v (List.mem_cons_of_mem w hv)
    have hrel := relax_eq goal n w t G hgoal hw.1 (hpos w hw.1) hG h0 h1
    simp only [relax_all]
    by_cases hc : G + 1 < (t.grid w.x w.y).g_score
    · rw [if_pos hc] at hrel
      have hwn : ¬ (n.x = w.x ∧ n.y = w.y) := (point_ne_iff n w).2 (Ne.symm hw.2)
      have hgrid : ∀ p : Point, (relax goal n t w).grid p.x p.y =
          if p = w then { t.grid w.x w.y with
              came_from := n, g_score := G + 1, f_score := G + 1 + manhattan w goal }
          else t.grid p.x p.y := by
        intro p
        rw [hrel]
        simp only [Grid.set, point_ext_iff]
      have hpos1 : ∀ p, InBounds p → ((relax goal n t w).grid p.x p.y).pos = p := by
        intro p hp
        rw [hgrid p]
        by_cases hpw : p = w
        · rw [if_pos hpw]; subst hpw; exact hpos p hp
        · rw [if_neg hpw]; exact hpos p hp
      have hG1 : ((relax goal n t w).grid n.x n.y).g_score = G := by
        rw [hgrid n, if_neg hw.2.symm]; exact hG
      rcases ih (relax goal n t w) hpos1 hG1 hrest with ⟨i1, i2, i3⟩
      refine ⟨?_, ?_, ?_⟩
      · intro p
        rw [i1 p, hgrid p]
        by_cases hpw : p = w
        · subst hpw
          simp [hc]
        · simp [hpw]
      · intro q
        rw [i2 q, hgrid q]
        have hop : (relax goal n t w).open_set = add_to_open_set w t.open_set := by rw [hrel]
        rw [hop, mem_add_to_open_set]
        by_cases hqw : q = w
        · subst hqw
          simp [hc]
        · simp [hqw]
      · intro hnd
        apply i3
        rw [hrel]
        exact nodup_add_to_open_set w t.open_set hnd
    · rw [if_neg hc] at hrel
      rw [hrel]
      rcases ih t hpos hG hrest with ⟨i1, i2, i3⟩
      refine ⟨?_, ?_, i3⟩
      · intro p
        rw [i1 p]
        by_cases hpw : p = w
        · subst hpw
          simp [hc]
        · simp [hpw]
      · intro q
        rw [i2 q]
        by_cases hqw : q = w
        · subst hqw
          simp [hc]
        · simp [hqw]

/-! ## The invariant holds throughout the search -/

theorem int_max_eq : INT_MAX = 2147483647 := rfl

theorem max_node_count_eq : MAX_NODE_COUNT = 450 := by decide

/-- The loop is entered with the invariant. -/
theorem search_inv_init (grid : Grid) (start goal : Point) (hs : InBounds start)
    (hg : InBounds goal) (hfresh : Fresh grid) :
    SearchInv grid start goal (init_search grid start goal) [] := by
  have hstart := init_search_grid_start grid start goal
  have hother := init_search_grid_other grid start goal
  have hopen := init_search_open grid start goal
  have hfin : ∀ p : Point, InBounds p →
      ((init_search grid start goal).grid p.x p.y).g_score < INT_MAX → p = start := by
    intro p hp hlt
    by_contra hne
    rw [hother p hne, (hfresh p hp).2.2] at hlt
    omega
  refine
    { walk := ?_, pos := ?_, open_nodup := ?_, open_in := ?_, open_fin := ?_,
      closed_nodup := List.nodup_nil, closed_iff := ?_, g_start := ?_, g_range := ?_,
      g_route := ?_, f_eq := ?_, closed_opt := ?_, closed_nbr := ?_, came := ?_,
      goal_open := ?_ }
  · intro x y
    by_cases h : (⟨x, y⟩ : Point) = start
    · subst h; rw [hstart]
    · exact congrArg Node.walkable (hother ⟨x, y⟩ h)
  · intro p hp
    by_cases h : p = start
    · subst h; rw [hstart]; exact (hfresh p hp).1
    · rw [hother p h]; exact (hfresh p hp).1
  · rw [hopen]; exact List.nodup_singleton start
  · intro p hp; rw [hopen] at hp; simp at hp; subst hp; exact hs
  · intro p hp; rw [hopen] at hp; simp at hp; subst hp; rw [hstart, int_max_eq]; simp
  · intro p
    constructor
    · intro h; cases h
    · rintro ⟨hp, hlt, hno⟩
      have := hfin p hp hlt
      rw [hopen] at hno
      simp [this] at hno
  · rw [hstart]
  · intro p hp hlt
    have := hfin p hp hlt
    subst this
    rw [hstart]; simp
  · intro p hp hlt
    have := hfin p hp hlt
    subst this
    exact ⟨[], ⟨trivial, rfl⟩, by rw [hstart]; simp⟩
  · intro p hp hlt
    have := hfin p hp hlt
    subst this
    rw [hstart]
    simp [heuristic_eq p goal hs hg]
  · intro p hp; cases hp
  · intro p hp; cases hp
  · intro p hp hlt hne
    exact absurd (hfin p hp hlt) hne
  · intro h; cases h

/-- Every cell expanded or waiting is a cell of the grid, so there are at most
`GRID_W * GRID_H` of them. -/
theorem search_inv_count (grid0 : Grid) (start goal : Point) (s : State) (closed : List Point)
    (inv : SearchInv grid0 start goal s closed) :
    (closed.length : Int) + s.open_set.length ≤ 450 := by
  have hnd : (closed ++ s.open_set).Nodup := by
    rw [List.nodup_append]
    refine ⟨inv.closed_nodup, inv.open_nodup, ?_⟩
    intro p hc ho
    exact ((inv.closed_iff p).1 hc).2.2 ho
  have hb : ∀ p ∈ closed ++ s.open_set, InBounds p := by
    intro p hp
    rcases List.mem_append.1 hp with h | h
    · exact ((inv.closed_iff p).1 h).1
    · exact inv.open_in p h
  have := in_bounds_nodup_length _ hnd hb
  rw [max_node_count_eq, List.length_append] at this
  exact_mod_cast this

/-- Along every route that leaves a cell with a finite `g_score`, either some
cell of the open set lies on it with a `g_score` no larger than the steps to
it, or the route ends in an expanded cell with such a `g_score`. -/
theorem search_inv_frontier (grid0 : Grid) (start goal : Point) (s : State)
    (closed : List Point) (inv : SearchInv grid0 start goal s closed) (moves : List Point) :
    ∀ u : Point, InBounds u → (s.grid u.x u.y).g_score < INT_MAX → route_from grid0 u moves →
      (∃ v ∈ s.open_set, ∃ d : Nat,
        (s.grid v.x v.y).g_score + d ≤ (s.grid u.x u.y).g_score + moves.length ∧
        manhattan v goal ≤ manhattan (route_end u moves) goal + d) ∨
      (route_end u moves ∈ closed ∧
        (s.grid (route_end u moves).x (route_end u moves).y).g_score ≤
          (s.grid u.x u.y).g_score + moves.length) := by
  have hcount := search_inv_count grid0 start goal s closed inv
  induction moves with
  | nil =>
    intro u hu hlt _
    by_cases ho : u ∈ s.open_set
    · left
      exact ⟨u, ho, 0, by simp, by simp [route_end]⟩
    · right
      exact ⟨(inv.closed_iff u).2 ⟨hu, hlt, ho⟩, by simp [route_end]⟩
  | cons c rest ih =>
    intro u hu hlt hr
    by_cases ho : u ∈ s.open_set
    · left
      exact ⟨u, ho, (c :: rest).length, le_refl _, manhattan_route grid0 goal (c :: rest) u hr⟩
    · have hcl : u ∈ closed := (inv.closed_iff u).2 ⟨hu, hlt, ho⟩
      have hcn : c ∈ neighbours_from grid0 u :=
        (mem_neighbours_from grid0 u c hu).2 ⟨hr.1, hr.2.1, hr.2.2.1⟩
      have hgc := inv.closed_nbr u hcl c hcn
      have hgu := inv.g_range u hu hlt
      have hcfin : (s.grid c.x c.y).g_score < INT_MAX := by
        rw [int_max_eq]; omega
      rcases ih c hr.2.1 hcfin hr.2.2.2 with ⟨v, hv, d, h1, h2⟩ | ⟨h1, h2⟩
      · left
        refine ⟨v, hv, d, ?_, h2⟩
        simp only [List.length_cons]; push_cast; omega
      · right
        refine ⟨h1, ?_⟩
        simp only [route_end, List.length_cons]; push_cast; omega

/-- The popped cell has the optimal `g_score`: no route from `start` to it is
shorter. -/
theorem search_inv_pop_optimal (grid0 : Grid) (start goal : Point) (s : State)
    (closed : List Point) (inv : SearchInv grid0 start goal s closed) (hs : InBounds start)
    (n : Point) (hn : n ∈ s.open_set)
    (hmin : ∀ q ∈ s.open_set, (s.grid n.x n.y).f_score ≤ (s.grid q.x q.y).f_score)
    (moves : List Point) (hr : Route grid0 start n moves) :
    (s.grid n.x n.y).g_score ≤ moves.length := by
  have h0 : (s.grid start.x start.y).g_score < INT_MAX := by rw [inv.g_start]; decide
  rcases search_inv_frontier grid0 start goal s closed inv moves start hs h0 hr.1 with
    ⟨v, hv, d, h1, h2⟩ | ⟨h1, _⟩
  · have hfn := inv.f_eq n (inv.open_in n hn) (inv.open_fin n hn)
    have hfv := inv.f_eq v (inv.open_in v hv) (inv.open_fin v hv)
    have := hmin v hv
    rw [hr.2] at h2
    rw [inv.g_start] at h1
    omega
  · rw [hr.2] at h1
    exact absurd hn ((inv.closed_iff n).1 h1).2.2

/-- What one round of the loop does in a state that satisfies the invariant:
it pops an entry `n` with the lowest `f_score`, and either `n` is the goal and
the success branch is taken, or the round runs to its end and expands `n`. -/
theorem loop_body_spec (grid0 : Grid) (start goal : Point) (s : State) (closed : List Point)
    (inv : SearchInv grid0 start goal s closed) (hg : InBounds goal)
    (hne : s.open_set ≠ []) :
    ∃ n, n ∈ s.open_set ∧
      (∀ q ∈ s.open_set, (s.grid n.x n.y).f_score ≤ (s.grid q.x q.y).f_score) ∧
      ((n = goal ∧ loop_body goal s = Round.found) ∨
        (n ≠ goal ∧ ∃ s1, loop_body goal s = Round.next s1 ∧ Expands goal s n s1)) := by
  have hcount := search_inv_count grid0 start goal s closed inv
  have hex : ∃ q ∈ s.open_set, (s.grid q.x q.y).f_score < INT_MAX := by
    obtain ⟨q, hq⟩ := List.exists_mem_of_ne_nil _ hne
    refine ⟨q, hq, ?_⟩
    have hqb := inv.open_in q hq
    have hqf := inv.open_fin q hq
    have := inv.g_range q hqb hqf
    have hm := manhattan_bounds q goal hqb hg
    rw [inv.f_eq q hqb hqf, int_max_eq]
    omega
  obtain ⟨i, n, hin, hpop, hmin, _⟩ := lowest_f_some s.grid s.open_set inv.open_in hex
  have hn : n ∈ s.open_set := List.getElem?_mem hin
  have hnb := inv.open_in n hn
  have hnr := inv.g_range n hnb (inv.open_fin n hn)
  refine ⟨n, hn, hmin, ?_⟩
  unfold loop_body
  rw [hpop]
  by_cases hng : n = goal
  · left
    refine ⟨hng, ?_⟩
    simp only [(point_eq_iff n goal).2 hng, if_true]
  · right
    refine ⟨hng, ?_⟩
    have hpe : ¬ point_eq n goal = true := fun h => hng ((point_eq_iff n goal).1 h)
    obtain ⟨rest, hrem, hrnd, _, hrmem⟩ := remove_from_open_set_mem n s.open_set inv.open_nodup hn
    simp only [hpe, hrem]
    refine ⟨_, rfl, ?_⟩
    have hws : ∀ w ∈ neighbours_from s.grid n, InBounds w ∧ w ≠ n := by
      intro w hw
      have := (mem_neighbours_from s.grid n w hnb).1 hw
      refine ⟨this.2.1, ?_⟩
      intro e
      rw [e] at this
      exact not_adjacent_self n this.1
    obtain ⟨h1, h2, h3⟩ := relax_all_spec goal n (s.grid n.x n.y).g_score hg hnr.1 (by omega)
      (neighbours_from s.grid n) { s with open_set := rest } inv.pos rfl hws
    exact
      { grid_eq := h1
        mem_open := fun q => by rw [h2 q, ← hrmem q]
        nodup := h3 hrnd }

/-- A complete round keeps the invariant and adds the popped cell to the
expanded ones. -/
theorem search_inv_step (grid0 : Grid) (start goal : Point) (s s1 : State)
    (closed : List Point) (inv : SearchInv grid0 start goal s closed) (hs : InBounds start)
    (n : Point) (hn : n ∈ s.open_set)
    (hmin : ∀ q ∈ s.open_set, (s.grid n.x n.y).f_score ≤ (s.grid q.x q.y).f_score)
    (hng : n ≠ goal) (hexp : Expands goal s n s1) :
    SearchInv grid0 start goal s1 (n :: closed) := by
  have hcount := search_inv_count grid0 start goal s closed inv
  have hnb := inv.open_in n hn
  have hnfin := inv.open_fin n hn
  have hnr := inv.g_range n hnb hnfin
  have hnc : n ∉ closed := fun h => ((inv.closed_iff n).1 h).2.2 hn
  have hws : neighbours_from s.grid n = neighbours_from grid0 n :=
    neighbours_from_congr s.grid grid0 n inv.walk
  have hkeep : ∀ p : Point, ¬ (p ∈ neighbours_from s.grid n ∧
      (s.grid n.x n.y).g_score + 1 < (s.grid p.x p.y).g_score) →
      s1.grid p.x p.y = s.grid p.x p.y := by
    intro p h; rw [hexp.grid_eq p, if_neg h]
  have hnew : ∀ p : Point, (p ∈ neighbours_from s.grid n ∧
      (s.grid n.x n.y).g_score + 1 < (s.grid p.x p.y).g_score) →
      s1.grid p.x p.y = { s.grid p.x p.y with
        came_from := n
        g_score := (s.grid n.x n.y).g_score + 1
        f_score := (s.grid n.x n.y).g_score + 1 + manhattan p goal } := by
    intro p h; rw [hexp.grid_eq p, if_pos h]
  have hle : ∀ p : Point, (s1.grid p.x p.y).g_score ≤ (s.grid p.x p.y).g_score := by
    intro p
    by_cases h : p ∈ neighbours_from s.grid n ∧
        (s.grid n.x n.y).g_score + 1 < (s.grid p.x p.y).g_score
    · rw [hnew p h]; simp only; omega
    · rw [hkeep p h]
  have hUin : ∀ p : Point, p ∈ neighbours_from s.grid n →
      Adjacent n p ∧ InBounds p ∧ (grid0 p.x p.y).walkable = true := by
    intro p h
    rw [hws] at h
    exact (mem_neighbours_from grid0 n p hnb).1 h
  have hclosedU : ∀ p ∈ closed, ¬ (p ∈ neighbours_from s.grid n ∧
      (s.grid n.x n.y).g_score + 1 < (s.grid p.x p.y).g_score) := by
    rintro p hp ⟨hpn, hlt⟩
    obtain ⟨moves, hr, hlen⟩ := inv.g_route n hnb hnfin
    have hU := hUin p hpn
    have hr2 := route_from_snoc grid0 p moves start hr.1 (by rw [hr.2]; exact hU.1) hU.2.1 hU.2.2
    have := inv.closed_opt p hp (moves ++ [p]) hr2
    rw [List.length_append] at this
    simp only [List.length_singleton] at this
    push_cast at this
    omega
  have hnU : ¬ (n ∈ neighbours_from s.grid n ∧
      (s.grid n.x n.y).g_score + 1 < (s.grid n.x n.y).g_score) := by
    rintro ⟨h, _⟩
    exact not_adjacent_self n (hUin n h).1
  have hstartU : ¬ (start ∈ neighbours_from s.grid n ∧
      (s.grid n.x n.y).g_score + 1 < (s.grid start.x start.y).g_score) := by
    rintro ⟨_, h⟩
    rw [inv.g_start] at h
    omega
  have hclosed_keep : ∀ p ∈ closed, s1.grid p.x p.y = s.grid p.x p.y :=
    fun p hp => hkeep p (hclosedU p hp)
  have hn_keep : s1.grid n.x n.y = s.grid n.x n.y := hkeep n hnU
  refine
    { walk := ?_, pos := ?_, open_nodup := hexp.nodup, open_in := ?_, open_fin := ?_,
      closed_nodup := List.nodup_cons.2 ⟨hnc, inv.closed_nodup⟩, closed_iff := ?_,
      g_start := ?_, g_range := ?_, g_route := ?_, f_eq := ?_, closed_opt := ?_,
      closed_nbr := ?_, came := ?_, goal_open := ?_ }
  · -- walk
    intro x y
    have := hexp.grid_eq ⟨x, y⟩
    simp only at this
    rw [this, ← inv.walk x y]
    split_ifs <;> rfl
  · -- pos
    intro p hp
    rw [hexp.grid_eq p]
    split_ifs
    · exact inv.pos p hp
    · exact inv.pos p hp
  · -- open_in
    intro p hp
    rcases (hexp.mem_open p).1 hp with ⟨h, _⟩ | ⟨h, _⟩
    · exact inv.open_in p h
    · exact (hUin p h).2.1
  · -- open_fin
    intro p hp
    by_cases h : p ∈ neighbours_from s.grid n ∧
        (s.grid n.x n.y).g_score + 1 < (s.grid p.x p.y).g_score
    · rw [hnew p h, int_max_eq]; simp only; omega
    · rw [hkeep p h]
      rcases (hexp.mem_open p).1 hp with ⟨h1, _⟩ | h1
      · exact inv.open_fin p h1
      · exact absurd h1 h
  · -- closed_iff
    intro p
    constructor
    · intro hp
      rcases List.mem_cons.1 hp with rfl | hpc
      · refine ⟨hnb, by rw [hn_keep]; exact hnfin, ?_⟩
        intro ho
        rcases (hexp.mem_open p).1 ho with ⟨_, h⟩ | h
        · exact h rfl
        · exact hnU h
      · have hc := (inv.closed_iff p).1 hpc
        refine ⟨hc.1, by rw [hclosed_keep p hpc]; exact hc.2.1, ?_⟩
        intro ho
        rcases (hexp.mem_open p).1 ho with ⟨h, _⟩ | h
        · exact hc.2.2 h
        · exact hclosedU p hpc h
    · rintro ⟨hp, hfin, hno⟩
      have hU : ¬ (p ∈ neighbours_from s.grid n ∧
          (s.grid n.x n.y).g_score + 1 < (s.grid p.x p.y).g_score) :=
        fun h => hno ((hexp.mem_open p).2 (Or.inr h))
      rw [hkeep p hU] at hfin
      by_cases hpn : p = n
      · rw [hpn]; exact List.mem_cons_self n closed
      · refine List.mem_cons_of_mem n ((inv.closed_iff p).2 ⟨hp, hfin, ?_⟩)
        intro ho
        exact hno ((hexp.mem_open p).2 (Or.inl ⟨ho, hpn⟩))
  · -- g_start
    rw [hkeep start hstartU]; exact inv.g_start
  · -- g_range
    intro p hp hfin
    simp only [List.length_cons]
    push_cast
    by_cases h : p ∈ neighbours_from s.grid n ∧
        (s.grid n.x n.y).g_score + 1 < (s.grid p.x p.y).g_score
    · rw [hnew p h]; simp only; omega
    · rw [hkeep p h] at hfin ⊢
      have := inv.g_range p hp hfin
      omega
  · -- g_route
    intro p hp hfin
    by_cases h : p ∈ neighbours_from s.grid n ∧
        (s.grid n.x n.y).g_score + 1 < (s.grid p.x p.y).g_score
    · obtain ⟨moves, hr, hlen⟩ := inv.g_route n hnb hnfin
      have hU := hUin p h.1
      have hr2 := route_from_snoc grid0 p moves start hr.1 (by rw [hr.2]; exact hU.1)
        hU.2.1 hU.2.2
      refine ⟨moves ++ [p], hr2, ?_⟩
      rw [hnew p h, List.length_append]
      simp only [List.length_singleton]
      push_cast
      omega
    · rw [hkeep p h] at hfin ⊢
      exact inv.g_route p hp hfin
  · -- f_eq
    intro p hp hfin
    by_cases h : p ∈ neighbours_from s.grid n ∧
        (s.grid n.x n.y).g_score + 1 < (s.grid p.x p.y).g_score
    · rw [hnew p h]
    · rw [hkeep p h] at hfin ⊢
      exact inv.f_eq p hp hfin
  · -- closed_opt
    intro p hp moves hr
    rcases List.mem_cons.1 hp with rfl | hpc
    · rw [hn_keep]
      exact search_inv_pop_optimal grid0 start goal s closed inv hs p hn hmin moves hr
    · rw [hclosed_keep p hpc]
      exact inv.closed_opt p hpc moves hr
  · -- closed_nbr
    intro p hp w hw
    rcases List.mem_cons.1 hp with rfl | hpc
    · rw [hn_keep]
      by_cases h : w ∈ neighbours_from s.grid p ∧
          (s.grid p.x p.y).g_score + 1 < (s.grid w.x w.y).g_score
      · rw [hnew w h]
      · rw [hkeep w h]
        rw [← hws] at hw
        by_contra hlt
        exact h ⟨hw, by omega⟩
    · rw [hclosed_keep p hpc]
      have := inv.closed_nbr p hpc w hw
      have := hle w
      omega
  · -- came
    intro p hp hfin hps
    by_cases h : p ∈ neighbours_from s.grid n ∧
        (s.grid n.x n.y).g_score + 1 < (s.grid p.x p.y).g_score
    · rw [hnew p h]
      simp only
      refine ⟨List.mem_cons_self n closed, by rw [hn_keep], ?_⟩
      rw [← hws]; exact h.1
    · rw [hkeep p h] at hfin ⊢
      obtain ⟨c1, c2, c3⟩ := inv.came p hp hfin hps
      refine ⟨List.mem_cons_of_mem n c1, ?_, c3⟩
      rw [hclosed_keep _ c1]
      exact c2
  · -- goal_open
    intro h
    rcases List.mem_cons.1 h with h | h
    · exact hng h.symm
    · exact inv.goal_open h

/-- While the goal can be reached and has not been popped, the open set is not
empty. -/
theorem search_inv_open_ne_nil (grid0 : Grid) (start goal : Point) (s : State)
    (closed : List Point) (inv : SearchInv grid0 start goal s closed) (hs : InBounds start)
    (moves : List Point) (hr : Route grid0 start goal moves) : s.open_set ≠ [] := by
  have h0 : (s.grid start.x start.y).g_score < INT_MAX := by rw [inv.g_start]; decide
  rcases search_inv_frontier grid0 start goal s closed inv moves start hs h0 hr.1 with
    ⟨v, hv, _⟩ | ⟨h1, _⟩
  · exact List.ne_nil_of_mem hv
  · rw [hr.2] at h1
    exact absurd h1 inv.goal_open

/-- A cell of the open set can be reached from `start`. -/
theorem search_inv_open_route (grid0 : Grid) (start goal : Point) (s : State)
    (closed : List Point) (inv : SearchInv grid0 start goal s closed) (p : Point)
    (hp : p ∈ s.open_set) : ∃ moves, Route grid0 start p moves :=
  (inv.g_route p (inv.open_in p hp) (inv.open_fin p hp)).imp fun _ h => h.1

/-- The loop from a state that satisfies the invariant: it never stops on an
assertion or an abort; it ends either in the success branch, with the goal in
the open set and an optimal `g_score`, or in failure after as many rounds as
cells were expanded, with the budget used up or the open set empty. -/
theorem search_loop_inv (grid0 : Grid) (start goal : Point) (hs : InBounds start)
    (hg : InBounds goal) :
    ∀ (fuel : Nat) (max_steps : Int) (s : State) (closed : List Point),
      SearchInv grid0 start goal s closed → max_steps.toNat ≤ fuel →
      (∃ s1 closed1, search_loop goal fuel max_steps s = Outcome.found s1 ∧
        SearchInv grid0 start goal s1 closed1 ∧ goal ∈ s1.open_set ∧
        ∀ moves, Route grid0 start goal moves →
          (s1.grid goal.x goal.y).g_score ≤ moves.length) ∨
      (∃ s1 closed1 m, search_loop goal fuel max_steps s = Outcome.failed m s1 ∧
        SearchInv grid0 start goal s1 closed1 ∧
        m + closed1.length = max_steps + closed.length ∧
        (s1.open_set = [] ∨ m ≤ 0)) := by
  intro fuel
  induction fuel with
  | zero =>
    intro max_steps s closed inv hf
    right
    exact ⟨s, closed, max_steps, search_loop_no_budget goal 0 max_steps s (by omega), inv, rfl,
      Or.inr (by omega)⟩
  | succ fuel ih =>
    intro max_steps s closed inv hf
    by_cases hc : s.open_set.length > 0 ∧ max_steps > 0
    · rw [search_loop_succ, if_pos hc]
      have hne : s.open_set ≠ [] := by
        intro h; rw [h] at hc; simp at hc
      obtain ⟨n, hn, hmin, ⟨hng, hb⟩ | ⟨hng, s1, hb, hexp⟩⟩ :=
        loop_body_spec grid0 start goal s closed inv hg hne
      · left
        rw [hb]
        refine ⟨s, closed, rfl, inv, hng ▸ hn, ?_⟩
        intro moves hr
        rw [← hng] at hr ⊢
        exact search_inv_pop_optimal grid0 start goal s closed inv hs n hn hmin moves hr
      · rw [hb]
        have inv1 := search_inv_step grid0 start goal s s1 closed inv hs n hn hmin hng hexp
        rcases ih (max_steps - 1) s1 (n :: closed) inv1 (by omega) with
          ⟨s2, c2, h1, h2, h3, h4⟩ | ⟨s2, c2, m, h1, h2, h3, h4⟩
        · left
          exact ⟨s2, c2, h1, h2, h3, h4⟩
        · right
          refine ⟨s2, c2, m, h1, h2, ?_, h4⟩
          rw [h3, List.length_cons]
          push_cast
          ring
    · right
      rw [search_loop_succ, if_neg hc]
      refine ⟨s, closed, max_steps, rfl, inv, rfl, ?_⟩
      by_cases ho : s.open_set = []
      · exact Or.inl ho
      · right
        have : s.open_set.length > 0 := List.length_pos.2 ho
        by_contra hm
        exact hc ⟨this, by omega⟩

/-- Consecutive cells of a route are adjacent, and the cells after the first
are in bounds and walkable. -/
theorem route_from_chain (grid : Grid) (moves : List Point) :
    ∀ a, route_from grid a moves →
      List.Chain' Adjacent (a :: moves) ∧
      ∀ q ∈ moves, InBounds q ∧ (grid q.x q.y).walkable = true := by
  induction moves with
  | nil => intro a _; simp
  | cons c rest ih =>
    intro a h
    have := ih c h.2.2.2
    refine ⟨List.chain'_cons.2 ⟨h.1, this.1⟩, ?_⟩
    intro q hq
    rcases List.mem_cons.1 hq with rfl | hq
    · exact ⟨h.2.1, h.2.2.1⟩
    · exact this.2 q hq

/-- The end of a route is the last cell of the sequence. -/
theorem route_end_getLast (moves : List Point) :
    ∀ a, (a :: moves).getLast? = some (route_end a moves) := by
  induction moves with
  | nil => intro a; rfl
  | cons c rest ih =>
    intro a
    rw [List.getLast?_cons_cons, ih c]
    rfl

/-- Only the start of a search has `g_score = 0`. -/
theorem search_inv_g_zero (grid0 : Grid) (start goal : Point) (s : State)
    (closed : List Point) (inv : SearchInv grid0 start goal s closed) (p : Point)
    (hp : InBounds p) (h0 : (s.grid p.x p.y).g_score = 0) : p = start := by
  by_contra hne
  have hfin : (s.grid p.x p.y).g_score < INT_MAX := by rw [h0]; decide
  obtain ⟨c1, c2, _⟩ := inv.came p hp hfin hne
  have hc := (inv.closed_iff _).1 c1
  have := inv.g_range _ hc.1 hc.2.1
  omega

/-- The loop of `reconstruct_path` from a cell with a finite `g_score`: it
returns after `g_score` rounds, and the values taken by `pos` are the
`came_from` chain of the cell, which is a route from `start` on which the
`g_score` of the `i`-th cell is `i`. -/
theorem reconstruct_loop_spec (grid0 : Grid) (start goal : Point) (s : State)
    (closed : List Point) (inv : SearchInv grid0 start goal s closed) :
    ∀ (k : Nat) (p : Point) (grid : Grid) (visited : List Point) (fuel : Nat),
      InBounds p → (s.grid p.x p.y).g_score < INT_MAX → (s.grid p.x p.y).g_score = k →
      (∀ x y, (grid x y).came_from = (s.grid x y).came_from) → k ≤ fuel →
      (∃ grid1, reconstruct_loop start fuel grid p visited =
        some (grid1, start :: came_from_chain s.grid k p ++ visited)) ∧
      Route grid0 start p (came_from_chain s.grid k p) ∧
      (came_from_chain s.grid k p).length = k ∧
      ∀ (i : Nat) (q : Point), (start :: came_from_chain s.grid k p)[i]? = some q →
        (s.grid q.x q.y).g_score = i := by
  intro k
  induction k with
  | zero =>
    intro p grid visited fuel hp _ hgp _ _
    have hps : p = start :=
      search_inv_g_zero grid0 start goal s closed inv p hp (by simpa using hgp)
    subst hps
    refine ⟨⟨grid, ?_⟩, ⟨trivial, rfl⟩, rfl, ?_⟩
    · cases fuel <;> simp [reconstruct_loop, point_eq_self, came_from_chain]
    · intro i q hq
      simp only [came_from_chain] at hq
      cases i with
      | zero => simp at hq; subst hq; simpa using hgp
      | succ i => simp at hq
  | succ k ih =>
    intro p grid visited fuel hp hfin hgp hcame hfuel
    have hps : p ≠ start := by
      intro e
      rw [e, inv.g_start] at hgp
      push_cast at hgp
      omega
    obtain ⟨c1, c2, c3⟩ := inv.came p hp hfin hps
    have hc := (inv.closed_iff _).1 c1
    have hgu : (s.grid (s.grid p.x p.y).came_from.x (s.grid p.x p.y).came_from.y).g_score
        = (k : Nat) := by
      rw [hgp] at c2
      push_cast at c2
      omega
    obtain ⟨fuel1, rfl⟩ : ∃ f, fuel = f + 1 := ⟨fuel - 1, by omega⟩
    have hcame1 : ∀ x y,
        ((grid.set p.x p.y { grid p.x p.y with graphics := '.' }) x y).came_from =
          (s.grid x y).came_from := by
      intro x y
      simp only [Grid.set]
      split_ifs with h
      · rw [h.1, h.2]; exact hcame p.x p.y
      · exact hcame x y
    obtain ⟨⟨grid1, h1⟩, h2, h3, h4⟩ :=
      ih (s.grid p.x p.y).came_from (grid.set p.x p.y { grid p.x p.y with graphics := '.' })
        (p :: visited) fuel1 hc.1 hc.2.1 hgu hcame1 (by omega)
    have hadj := (mem_neighbours_from grid0 _ p hc.1).1 c3
    have hr := route_from_snoc grid0 p _ start h2.1 (by rw [h2.2]; exact hadj.1) hadj.2.1
      hadj.2.2
    refine ⟨⟨grid1, ?_⟩, ?_, ?_, ?_⟩
    · have hpe : ¬ point_eq p start = true := fun h => hps ((point_eq_iff p start).1 h)
      unfold InBounds at hp
      simp only [reconstruct_loop, hpe]
      rw [if_neg (by simp), if_pos (by omega), hcame p.x p.y]
      simp only [] at h1
      rw [hcame p.x p.y] at h1
      rw [h1]
      simp [came_from_chain]
    · exact hr
    · simp only [came_from_chain, List.length_append, List.length_singleton, h3]
    · intro i q hq
      simp only [came_from_chain] at hq
      rw [← List.cons_append] at hq
      by_cases hi : i < (start :: came_from_chain s.grid k (s.grid p.x p.y).came_from).length
      · rw [List.getElem?_append_left hi] at hq
        exact h4 i q hq
      · rw [List.getElem?_append_right (by omega)] at hq
        simp only [List.length_cons, h3] at hq hi
        have hik : i = k + 1 := by
          by_contra hne
          have : i - (k + 1) = (i - (k + 1) - 1) + 1 := by omega
          rw [this] at hq
          simp at hq
        subst hik
        simp at hq
        subst hq
        rw [hgp]

/-- The grid left by `generate_maze` is fresh. -/
theorem fresh_generate_maze (rand : Int → Int → Int) : Fresh (generate_maze rand) :=
  fun _ _ => ⟨rfl, rfl, rfl⟩

/-- The grids built with `fresh_grid` are fresh. -/
theorem fresh_grid_fresh (walk : Int → Int → Bool) : Fresh (fresh_grid walk) :=
  fun _ _ => ⟨rfl, rfl, rfl⟩

/-- A search from a fresh grid never stops on an assertion or an abort and never
runs out of fuel: it ends in the success branch or in failure, in a state that
satisfies the invariant. -/
theorem search_inv (grid : Grid) (start goal : Point) (budget : Int) (hs : InBounds start)
    (hg : InBounds goal) (hfresh : Fresh grid) :
    (∃ s closed, search grid start goal budget = Outcome.found s ∧
      SearchInv grid start goal s closed ∧ goal ∈ s.open_set ∧
      ∀ moves, Route grid start goal moves → (s.grid goal.x goal.y).g_score ≤ moves.length) ∨
    (∃ s closed m, search grid start goal budget = Outcome.failed m s ∧
      SearchInv grid start goal s closed ∧ m + closed.length = budget ∧
      (s.open_set = [] ∨ m ≤ 0)) := by
  have inv0 := search_inv_init grid start goal hs hg hfresh
  rcases search_loop_inv grid start goal hs hg budget.toNat budget _ [] inv0 (le_refl _) with
    h | ⟨s, closed, m, h1, h2, h3, h4⟩
  · exact Or.inl h
  · right
    exact ⟨s, closed, m, h1, h2, by simpa using h3, h4⟩

/-- The walk of `reconstruct_path` from the goal in a state in which the goal
is in the open set. -/
theorem reconstruct_path_spec (grid0 : Grid) (start goal : Point) (s : State)
    (closed : List Point) (inv : SearchInv grid0 start goal s closed)
    (hgo : goal ∈ s.open_set) :
    ∃ moves : List Point,
      (∀ fuel, moves.length ≤ fuel →
        ∃ grid1, reconstruct_path fuel s.grid start goal = some (grid1, start :: moves)) ∧
      Route grid0 start goal moves ∧
      (moves.length : Int) = (s.grid goal.x goal.y).g_score ∧
      (start :: moves).Nodup := by
  have hgb := inv.open_in goal hgo
  have hfin := inv.open_fin goal hgo
  have hr := inv.g_range goal hgb hfin
  obtain ⟨k, hk⟩ : ∃ k : Nat, (s.grid goal.x goal.y).g_score = k :=
    ⟨(s.grid goal.x goal.y).g_score.toNat, by omega⟩
  have hspec := reconstruct_loop_spec grid0 start goal s closed inv k goal
  have h0 := hspec s.grid [] k hgb hfin hk (fun _ _ => rfl) (le_refl _)
  refine ⟨came_from_chain s.grid k goal, ?_, h0.2.1, by rw [h0.2.2.1, hk], ?_⟩
  · intro fuel hfuel
    rw [h0.2.2.1] at hfuel
    obtain ⟨⟨grid1, h1⟩, _⟩ := hspec s.grid [] fuel hgb hfin hk (fun _ _ => rfl) hfuel
    exact ⟨grid1, by simpa [reconstruct_path] using h1⟩
  · rw [List.nodup_iff_getElem?_ne_getElem?]
    intro i j hij hj heq
    obtain ⟨q, hq⟩ : ∃ q, (start :: came_from_chain s.grid k goal)[j]? = some q :=
      ⟨_, List.getElem?_eq_getElem hj⟩
    have h1 := h0.2.2.2 j q hq
    rw [← heq] at hq
    have h2 := h0.2.2.2 i q hq
    rw [h1] at h2
    have : (j : Int) = i := h2
    omega

/-- Claim C1: optimality.  On every fresh grid, for in-bounds `start` and `goal`
with `start` walkable and `goal` reachable from `start` through orthogonally
adjacent walkable cells, the loop of `main` run with a budget of at least
`GRID_W * GRID_H` rounds (`main` gives it 9999) reaches its success branch.
At that moment `g_score` of the goal is the number of steps of a shortest
route from `start` to `goal`, and `reconstruct_path` returns after walking a
`came_from` chain of exactly that many steps. -/
theorem search_optimal (grid : Grid) (start goal : Point) (budget : Int)
    (hs : InBounds start) (hg : InBounds goal)
    (_hw : (grid start.x start.y).walkable = true) (hfresh : Fresh grid)
    (hreach : ∃ moves, Route grid start goal moves) (hb : MAX_NODE_COUNT ≤ budget) :
    ∃ (s : State) (path best : List Point),
      search grid start goal budget = Outcome.found s ∧
      Route grid start goal best ∧
      (∀ moves, Route grid start goal moves → best.length ≤ moves.length) ∧
      (s.grid goal.x goal.y).g_score = best.length ∧
      path.length = best.length + 1 ∧
      ∀ fuel, best.length ≤ fuel →
        ∃ grid1, reconstruct_path fuel s.grid start goal = some (grid1, path) := by
  obtain ⟨moves0, hr0⟩ := hreach
  rcases search_inv grid start goal budget hs hg hfresh with
    ⟨s, closed, h1, inv, hgo, hopt⟩ | ⟨s, closed, m, h1, inv, hm, hend⟩
  · obtain ⟨best, hrec, hroute, hlen, _⟩ :=
      reconstruct_path_spec grid start goal s closed inv hgo
    refine ⟨s, start :: best, best, h1, hroute, ?_, hlen.symm, rfl, hrec⟩
    intro moves hmoves
    have := hopt moves hmoves
    rw [← hlen] at this
    exact_mod_cast this
  · exfalso
    have hne := search_inv_open_ne_nil grid start goal s closed inv hs moves0 hr0
    have hcount := search_inv_count grid start goal s closed inv
    have hpos : 0 < s.open_set.length := List.length_pos.2 hne
    rw [max_node_count_eq] at hb
    rcases hend with h | h
    · exact hne h
    · omega

/-- Claim C2: path validity.  Whenever a search from a fresh grid with in-bounds
`start` and `goal` and walkable `start` succeeds, `reconstruct_path` returns,
and the cells it walks along the `came_from` links, read from `start` to
`goal`, begin with `start`, end with `goal`, are all in bounds and walkable,
are pairwise orthogonally adjacent from one to the next, and are all
different. -/
theorem reconstruct_path_valid (grid : Grid) (start goal : Point) (budget : Int) (s : State)
    (hs : InBounds start) (hg : InBounds goal)
    (hw : (grid start.x start.y).walkable = true) (hfresh : Fresh grid)
    (hfound : search grid start goal budget = Outcome.found s) :
    ∃ path : List Point,
      (∀ fuel, path.length ≤ fuel + 1 →
        ∃ grid1, reconstruct_path fuel s.grid start goal = some (grid1, path)) ∧
      path.head? = some start ∧ path.getLast? = some goal ∧
      (∀ p ∈ path, InBounds p ∧ (s.grid p.x p.y).walkable = true) ∧
      List.Chain' Adjacent path ∧ path.Nodup := by
  rcases search_inv grid start goal budget hs hg hfresh with
    ⟨s1, closed, h1, inv, hgo, _⟩ | ⟨s1, closed, m, h1, _⟩
  · rw [hfound] at h1
    cases h1
    obtain ⟨moves, hrec, hroute, _, hnd⟩ :=
      reconstruct_path_spec grid start goal s closed inv hgo
    have hch := route_from_chain grid moves start hroute.1
    refine ⟨start :: moves, ?_, rfl, ?_, ?_, hch.1, hnd⟩
    · intro fuel hfuel
      exact hrec fuel (by simpa using hfuel)
    · rw [route_end_getLast, hroute.2]
    · intro p hp
      rw [inv.walk]
      rcases List.mem_cons.1 hp with rfl | hp
      · exact ⟨hs, hw⟩
      · exact hch.2 p hp
  · rw [hfound] at h1
    cases h1

/-- Claim C3: unreachable detection.  On every fresh grid, for in-bounds
`start ≠ goal` such that no route leads from `start` to `goal` (a route moves
from each cell to an orthogonally adjacent walkable cell of the grid), the
search takes its success branch for no budget at all, and with a budget of at
least `GRID_W * GRID_H` it leaves the loop with an empty open set and budget
to spare and reports the plain "Failed to find a path." -/
theorem search_unreachable (grid : Grid) (start goal : Point)
    (hs : InBounds start) (hg : InBounds goal) (_hne : start ≠ goal) (hfresh : Fresh grid)
    (hno : ∀ moves, ¬ Route grid start goal moves) :
    (∀ budget s, search grid start goal budget ≠ Outcome.found s) ∧
    ∀ budget, MAX_NODE_COUNT ≤ budget →
      ∃ m s, search grid start goal budget = Outcome.failed m s ∧ 0 < m ∧
        s.open_set = [] ∧ report (search grid start goal budget) = Report.NoPathFound := by
  have hnever : ∀ (s : State) (closed : List Point),
      SearchInv grid start goal s closed → goal ∉ s.open_set := by
    intro s closed inv hgo
    obtain ⟨moves, hr⟩ := search_inv_open_route grid start goal s closed inv goal hgo
    exact hno moves hr
  constructor
  · intro budget s hfound
    rcases search_inv grid start goal budget hs hg hfresh with
      ⟨s1, closed, _, inv, hgo, _⟩ | ⟨s1, closed, m, h1, _⟩
    · exact hnever s1 closed inv hgo
    · rw [hfound] at h1
      cases h1
  · intro budget hb
    rcases search_inv grid start goal budget hs hg hfresh with
      ⟨s1, closed, _, inv, hgo, _⟩ | ⟨s1, closed, m, h1, inv, hm, hend⟩
    · exact absurd hgo (hnever s1 closed inv)
    · have hgo := hnever s1 closed inv
      have hnd : (goal :: (closed ++ s1.open_set)).Nodup := by
        rw [List.nodup_cons, List.nodup_append]
        refine ⟨?_, inv.closed_nodup, inv.open_nodup, ?_⟩
        · intro h
          rcases List.mem_append.1 h with h | h
          · exact inv.goal_open h
          · exact hgo h
        · intro p hc ho
          exact ((inv.closed_iff p).1 hc).2.2 ho
      have hin : ∀ p ∈ goal :: (closed ++ s1.open_set), InBounds p := by
        intro p hp
        rcases List.mem_cons.1 hp with rfl | hp
        · exact hg
        · rcases List.mem_append.1 hp with h | h
          · exact ((inv.closed_iff p).1 h).1
          · exact inv.open_in p h
      have hlen := in_bounds_nodup_length _ hnd hin
      rw [List.length_cons, List.length_append] at hlen
      push_cast at hlen
      rw [max_node_count_eq] at hlen hb
      have hmpos : 0 < m := by omega
      have hempty : s1.open_set = [] := by
        rcases hend with h | h
        · exact h
        · omega
      refine ⟨m, s1, h1, hmpos, hempty, ?_⟩
      rw [h1]
      simp only [report]
      rw [if_neg (by omega)]

/-- On `wall_at_2` a route that starts left of the wall stays left of it. -/
theorem wall_at_2_left (moves : List Point) :
    ∀ a : Point, a.x < 2 → route_from wall_at_2 a moves → (route_end a moves).x < 2 := by
  induction moves with
  | nil => intro a ha _; exact ha
  | cons c rest ih =>
    intro a ha h
    apply ih c _ h.2.2.2
    have hadj := h.1
    have hw : c.x ≠ 2 := by
      have := h.2.2.1
      simpa [wall_at_2, fresh_grid, maze_cell] using this
    unfold Adjacent at hadj
    omega

/-! ## The heuristic and the neighbours -/

/-- Whenever the Manhattan distance fits a C `int`, `heuristic` computes it
without overflow. -/
theorem heuristic_eq_of_le (p goal : Point) (h : manhattan p goal ≤ INT_MAX) :
    heuristic p goal = manhattan p goal := by
  unfold manhattan at h ⊢
  rw [int_max_eq] at h
  have n1 := abs_nonneg (goal.x - p.x)
  have n2 := abs_nonneg (goal.y - p.y)
  have a1 : (if goal.x - p.x < 0 then -(goal.x - p.x) else goal.x - p.x) = |goal.x - p.x| := by
    split_ifs with h1
    · rw [abs_of_neg h1]
    · rw [abs_of_nonneg (by omega)]
  have a2 : (if goal.y - p.y < 0 then -(goal.y - p.y) else goal.y - p.y) = |goal.y - p.y| := by
    split_ifs with h1
    · rw [abs_of_neg h1]
    · rw [abs_of_nonneg (by omega)]
  have b1 := abs_le.1 (show |goal.x - p.x| ≤ 2147483647 by omega)
  have b2 := abs_le.1 (show |goal.y - p.y| ≤ 2147483647 by omega)
  unfold heuristic c_abs
  rw [wrap_int_eq (goal.x - p.x) (by omega) (by omega),
    wrap_int_eq (goal.y - p.y) (by omega) (by omega), a1, a2,
    wrap_int_eq |goal.x - p.x| (by omega) (by omega),
    wrap_int_eq |goal.y - p.y| (by omega) (by omega), wrap_int_eq _ (by omega) (by omega)]

/-- Claim C11: admissibility of the heuristic.  For cells `p` and `goal` of the
grid, `heuristic p goal` is `|goal.x - p.x| + |goal.y - p.y|`, it is 0 from the
goal to itself, and it is at most the number of steps of every route from
`p` to `goal`, hence of a shortest one. -/
theorem heuristic_admissible (grid : Grid) (p goal : Point) (hp : InBounds p)
    (hg : InBounds goal) :
    heuristic p goal = |goal.x - p.x| + |goal.y - p.y| ∧
    heuristic goal goal = 0 ∧
    ∀ moves, Route grid p goal moves → heuristic p goal ≤ moves.length := by
  refine ⟨heuristic_eq p goal hp hg, ?_, ?_⟩
  · rw [heuristic_eq goal goal hg hg, manhattan_self]
  · intro moves hr
    have h := manhattan_route grid goal moves p hr.1
    rw [hr.2, manhattan_self] at h
    rw [heuristic_eq p goal hp hg]
    omega

/-- One line of `neighbours_from`, as a filter on the cell it looks at. -/
theorem neighbours_guard (grid : Grid) (c : Prop) [Decidable c] (q : Point)
    (h : InBounds q ↔ c) :
    (if c ∧ (grid q.x q.y).walkable = true then [q] else []) =
      [q].filter (fun q => decide (InBounds q) && (grid q.x q.y).walkable) := by
  by_cases hc : c
  · have hq : InBounds q := h.2 hc
    by_cases hw : (grid q.x q.y).walkable = true
    · rw [if_pos ⟨hc, hw⟩]; simp [hq, hw]
    · rw [if_neg (fun h1 => hw h1.2)]; simp [hw]
  · have hq : ¬ InBounds q := fun h1 => hc (h.1 h1)
    rw [if_neg (fun h1 => hc h1.1)]; simp [hq]

/-- The list stored by `neighbours_from`: the left, upper, right and lower cell,
in this order, without those that are out of bounds or not walkable. -/
theorem neighbours_from_eq_filter (grid : Grid) (p : Point) (hp : InBounds p) :
    neighbours_from grid p =
      ([⟨p.x - 1, p.y⟩, ⟨p.x, p.y - 1⟩, ⟨p.x + 1, p.y⟩, ⟨p.x, p.y + 1⟩] : List Point).filter
        (fun q => decide (InBounds q) && (grid q.x q.y).walkable) := by
  have e : ([⟨p.x - 1, p.y⟩, ⟨p.x, p.y - 1⟩, ⟨p.x + 1, p.y⟩, ⟨p.x, p.y + 1⟩] : List Point) =
      [⟨p.x - 1, p.y⟩] ++ [⟨p.x, p.y - 1⟩] ++ [⟨p.x + 1, p.y⟩] ++ [⟨p.x, p.y + 1⟩] := rfl
  unfold InBounds GRID_W GRID_H at hp
  rw [e, List.filter_append, List.filter_append, List.filter_append]
  unfold neighbours_from
  rw [neighbours_guard grid (p.x > 0) ⟨p.x - 1, p.y⟩ (by unfold InBounds GRID_W GRID_H; simp only; omega),
    neighbours_guard grid (p.y > 0) ⟨p.x, p.y - 1⟩ (by unfold InBounds GRID_W GRID_H; simp only; omega),
    neighbours_guard grid (p.x < GRID_W - 1) ⟨p.x + 1, p.y⟩
      (by unfold InBounds GRID_W GRID_H; simp only; omega),
    neighbours_guard grid (p.y < GRID_H - 1) ⟨p.x, p.y + 1⟩
      (by unfold InBounds GRID_W GRID_H; simp only; omega)]

/-- Claim C18: for a cell `p` of the grid, `neighbours_from` stores the left,
upper, right and lower cell, in this order, leaving out those that are out of
bounds or not walkable.  So it stores exactly the cells that are in bounds,
walkable and orthogonally adjacent to `p`, each once, between 0 and 4 of them,
and every index pair at which it reads the grid, and every one it returns, is
in bounds. -/
theorem neighbours_from_spec (grid : Grid) (p : Point) (hp : InBounds p) :
    neighbours_from grid p =
      ([⟨p.x - 1, p.y⟩, ⟨p.x, p.y - 1⟩, ⟨p.x + 1, p.y⟩, ⟨p.x, p.y + 1⟩] : List Point).filter
        (fun q => decide (InBounds q) && (grid q.x q.y).walkable) ∧
    (∀ q, q ∈ neighbours_from grid p ↔
      (InBounds q ∧ (grid q.x q.y).walkable = true ∧ Adjacent p q)) ∧
    (neighbours_from grid p).Nodup ∧
    (neighbours_from grid p).length ≤ 4 ∧
    (∀ q ∈ neighbours_from_reads p, InBounds q) ∧
    (∀ q ∈ neighbours_from grid p, q ∈ neighbours_from_reads p) := by
  have hf := neighbours_from_eq_filter grid p hp
  refine ⟨hf, ?_, ?_, ?_, ?_, ?_⟩
  · intro q
    rw [mem_neighbours_from grid p q hp]
    tauto
  · rw [hf]
    apply List.Nodup.filter
    simp only [List.nodup_cons, List.mem_cons, List.mem_singleton, Point.mk.injEq,
      List.not_mem_nil, not_false_eq_true, List.nodup_nil, and_true, not_or]
    omega
  · rw [hf]
    exact (List.length_filter_le _ _).trans (by simp)
  · intro q hq
    unfold InBounds GRID_W GRID_H at hp ⊢
    unfold neighbours_from_reads GRID_W GRID_H at hq
    simp only [List.mem_append] at hq
    rcases hq with ((hq | hq) | hq) | hq
    all_goals
      split_ifs at hq with hc
      · simp only [List.mem_singleton] at hq
        subst hq
        simp only
        omega
      · simp at hq
  · intro q hq
    unfold neighbours_from at hq
    unfold neighbours_from_reads
    simp only [List.mem_append] at hq ⊢
    rcases hq with ((hq | hq) | hq) | hq
    · left; left; left
      split_ifs at hq with hc
      · rw [if_pos hc.1]; exact hq
      · simp at hq
    · left; left; right
      split_ifs at hq with hc
      · rw [if_pos hc.1]; exact hq
      · simp at hq
    · left; right
      split_ifs at hq with hc
      · rw [if_pos hc.1]; exact hq
      · simp at hq
    · right
      split_ifs at hq with hc
      · rw [if_pos hc.1]; exact hq
      · simp at hq

/-! ## Reconstruction leaves the cost table alone -/

theorem reconstruct_loop_zero (start : Point) (grid : Grid) (pos : Point) (visited : List Point) :
    reconstruct_loop start 0 grid pos visited =
      if point_eq pos start then some (grid, pos :: visited) else none := rfl

theorem reconstruct_loop_succ (start : Point) (fuel : Nat) (grid : Grid) (pos : Point)
    (visited : List Point) :
    reconstruct_loop start (fuel + 1) grid pos visited =
      if point_eq pos start then some (grid, pos :: visited)
      else if pos.x > -1 ∧ pos.y > -1 then
        reconstruct_loop start fuel
          (grid.set pos.x pos.y { grid pos.x pos.y with graphics := '.' })
          (grid pos.x pos.y).came_from (pos :: visited)
      else none := rfl

/-- What the loop of `reconstruct_path` changes: nothing but the `graphics`
field, and only of cells among the values taken by `pos`. -/
theorem reconstruct_loop_frame (start : Point) :
    ∀ (fuel : Nat) (grid : Grid) (pos : Point) (visited : List Point) (grid1 : Grid)
      (path : List Point),
      reconstruct_loop start fuel grid pos visited = some (grid1, path) →
      (∀ q ∈ pos :: visited, q ∈ path) ∧
      ∀ x y, grid1 x y = grid x y ∨
        ((⟨x, y⟩ : Point) ∈ path ∧ grid1 x y = { grid x y with graphics := '.' }) := by
  intro fuel
  induction fuel with
  | zero =>
    intro grid pos visited grid1 path h
    rw [reconstruct_loop_zero] at h
    split_ifs at h
    simp only [Option.some.injEq, Prod.mk.injEq] at h
    obtain ⟨rfl, rfl⟩ := h
    exact ⟨fun q hq => hq, fun x y => Or.inl rfl⟩
  | succ fuel ih =>
    intro grid pos visited grid1 path h
    rw [reconstruct_loop_succ] at h
    split_ifs at h with h1 h2
    · simp only [Option.some.injEq, Prod.mk.injEq] at h
      obtain ⟨rfl, rfl⟩ := h
      exact ⟨fun q hq => hq, fun x y => Or.inl rfl⟩
    · obtain ⟨hsub, hgrid⟩ := ih _ _ _ _ _ h
      have hpos : pos ∈ path := hsub pos (List.mem_cons_of_mem _ (List.mem_cons_self _ _))
      refine ⟨?_, ?_⟩
      · intro q hq
        rcases List.mem_cons.1 hq with rfl | hq
        · exact hpos
        · exact hsub q (List.mem_cons_of_mem _ (List.mem_cons_of_mem _ hq))
      · intro x y
        by_cases hxy : x = pos.x ∧ y = pos.y
        · right
          obtain ⟨rfl, rfl⟩ := hxy
          refine ⟨hpos, ?_⟩
          rcases hgrid pos.x pos.y with e | ⟨_, e⟩
          · rw [e, grid_set_same]
          · rw [e, grid_set_same]
        · rcases hgrid x y with e | ⟨hm, e⟩
          · left; rw [e, grid_set_other _ _ _ _ _ _ hxy]
          · right; exact ⟨hm, by rw [e, grid_set_other _ _ _ _ _ _ hxy]⟩

/-- The values taken by `pos` in `reconstruct_path` depend on the `came_from`
fields only. -/
theorem reconstruct_loop_congr (start : Point) :
    ∀ (fuel : Nat) (g1 g2 : Grid) (pos : Point) (visited : List Point),
      (∀ x y, (g1 x y).came_from = (g2 x y).came_from) →
      (reconstruct_loop start fuel g1 pos visited).map Prod.snd =
        (reconstruct_loop start fuel g2 pos visited).map Prod.snd := by
  intro fuel
  induction fuel with
  | zero =>
    intro g1 g2 pos visited _
    rw [reconstruct_loop_zero, reconstruct_loop_zero]
    split_ifs <;> rfl
  | succ fuel ih =>
    intro g1 g2 pos visited h
    rw [reconstruct_loop_succ, reconstruct_loop_succ]
    split_ifs with h1 h2
    · rfl
    · rw [h pos.x pos.y]
      apply ih
      intro x y
      by_cases hxy : x = pos.x ∧ y = pos.y
      · obtain ⟨rfl, rfl⟩ := hxy
        rw [grid_set_same, grid_set_same]
        exact h pos.x pos.y
      · rw [grid_set_other _ _ _ _ _ _ hxy, grid_set_other _ _ _ _ _ _ hxy]
        exact h x y
    · rfl

/-- Claim C12: idempotent, non-mutating reconstruction.  A call of
`reconstruct_path` that returns leaves `walkable`, `pos`, `came_from`,
`f_score` and `g_score` of every cell as they were; the only cells that change
at all are visited ones, and only in their `graphics` field.  A second call on
the state left by the first visits the same sequence of cells. -/
theorem reconstruct_path_frame (fuel : Nat) (grid grid1 : Grid) (start goal : Point)
    (path : List Point) (h : reconstruct_path fuel grid start goal = some (grid1, path)) :
    (∀ x y, (grid1 x y).walkable = (grid x y).walkable ∧ (grid1 x y).pos = (grid x y).pos ∧
      (grid1 x y).came_from = (grid x y).came_from ∧
      (grid1 x y).f_score = (grid x y).f_score ∧
      (grid1 x y).g_score = (grid x y).g_score) ∧
    (∀ x y, grid1 x y ≠ grid x y →
      (⟨x, y⟩ : Point) ∈ path ∧ grid1 x y = { grid x y with graphics := '.' }) ∧
    ∃ grid2, reconstruct_path fuel grid1 start goal = some (grid2, path) := by
  unfold reconstruct_path at h ⊢
  obtain ⟨_, hgrid⟩ := reconstruct_loop_frame start fuel grid goal [] grid1 path h
  have hfields : ∀ x y, (grid1 x y).walkable = (grid x y).walkable ∧
      (grid1 x y).pos = (grid x y).pos ∧ (grid1 x y).came_from = (grid x y).came_from ∧
      (grid1 x y).f_score = (grid x y).f_score ∧ (grid1 x y).g_score = (grid x y).g_score := by
    intro x y
    rcases hgrid x y with e | ⟨_, e⟩ <;> rw [e] <;> exact ⟨rfl, rfl, rfl, rfl, rfl⟩
  refine ⟨hfields, ?_, ?_⟩
  · intro x y hne
    rcases hgrid x y with e | e
    · exact absurd e hne
    · exact e
  · have hc := reconstruct_loop_congr start fuel grid1 grid goal [] (fun x y => (hfields x y).2.2.1)
    rw [h] at hc
    cases h2 : reconstruct_loop start fuel grid1 goal [] with
    | none => rw [h2] at hc; cases hc
    | some r =>
      rw [h2] at hc
      simp only [Option.map_some', Option.some.injEq] at hc
      exact ⟨r.1, by rw [← hc]⟩

/-! ## The states of the search, round by round -/

/-- The point returned by `get_point_with_lowest_f_score` is an entry of the
open set. -/
theorem lowest_f_mem (grid : Grid) (os : List Point) (n : Point)
    (h : get_point_with_lowest_f_score grid os = some n) : n ∈ os := by
  unfold get_point_with_lowest_f_score at h
  rcases lowest_f_scan_spec grid os INT_MAX ⟨-1, -1⟩ with ⟨_, heq⟩ | ⟨i, b, hib, heq, _⟩
  · rw [heq] at h
    simp at h
  · rw [heq] at h
    simp only at h
    split_ifs at h
    cases h
    exact List.getElem?_mem hib

/-- The first two steps of a round in a state that satisfies the invariant:
the pop returns an entry `n` of the open set with the lowest `f_score`, and if
`n` is not the goal the removal succeeds. -/
theorem search_inv_pop (grid0 : Grid) (start goal : Point) (s : State) (closed : List Point)
    (inv : SearchInv grid0 start goal s closed) (hg : InBounds goal)
    (hne : s.open_set ≠ []) :
    ∃ n rest, get_point_with_lowest_f_score s.grid s.open_set = some n ∧ n ∈ s.open_set ∧
      (∀ q ∈ s.open_set, (s.grid n.x n.y).f_score ≤ (s.grid q.x q.y).f_score) ∧
      remove_from_open_set n s.open_set = some rest ∧ rest.Nodup ∧
      (∀ q, q ∈ rest ↔ (q ∈ s.open_set ∧ q ≠ n)) ∧
      InBounds n ∧ 0 ≤ (s.grid n.x n.y).g_score ∧ (s.grid n.x n.y).g_score ≤ 450 ∧
      ∀ w ∈ neighbours_from s.grid n, InBounds w ∧ w ≠ n := by
  have hcount := search_inv_count grid0 start goal s closed inv
  have hex : ∃ q ∈ s.open_set, (s.grid q.x q.y).f_score < INT_MAX := by
    obtain ⟨q, hq⟩ := List.exists_mem_of_ne_nil _ hne
    refine ⟨q, hq, ?_⟩
    have hqb := inv.open_in q hq
    have hqf := inv.open_fin q hq
    have := inv.g_range q hqb hqf
    have hm := manhattan_bounds q goal hqb hg
    rw [inv.f_eq q hqb hqf, int_max_eq]
    omega
  obtain ⟨i, n, hin, hpop, hmin, _⟩ := lowest_f_some s.grid s.open_set inv.open_in hex
  have hn : n ∈ s.open_set := List.getElem?_mem hin
  have hnb := inv.open_in n hn
  have hnr := inv.g_range n hnb (inv.open_fin n hn)
  obtain ⟨rest, hrem, hrnd, _, hrmem⟩ := remove_from_open_set_mem n s.open_set inv.open_nodup hn
  refine ⟨n, rest, hpop, hn, hmin, hrem, hrnd, hrmem, hnb, hnr.1, by omega, ?_⟩
  intro w hw
  have := (mem_neighbours_from s.grid n w hnb).1 hw
  refine ⟨this.2.1, ?_⟩
  intro e
  rw [e] at this
  exact not_adjacent_self n this.1

/-- A complete round from a state that satisfies the invariant expands the
popped point and leaves a state that satisfies the invariant. -/
theorem search_inv_round (grid0 : Grid) (start goal : Point) (s s1 : State)
    (closed : List Point) (inv : SearchInv grid0 start goal s closed) (hs : InBounds start)
    (hg : InBounds goal) (hne : s.open_set ≠ []) (hb : loop_body goal s = Round.next s1) :
    ∃ n, get_point_with_lowest_f_score s.grid s.open_set = some n ∧ n ∈ s.open_set ∧
      n ≠ goal ∧ Expands goal s n s1 ∧ SearchInv grid0 start goal s1 (n :: closed) := by
  obtain ⟨n, rest, hpop, hn, hmin, hrem, hrnd, hrmem, hnb, hn0, hn1, hws⟩ :=
    search_inv_pop grid0 start goal s closed inv hg hne
  unfold loop_body at hb
  rw [hpop] at hb
  by_cases hng : n = goal
  · simp only [(point_eq_iff n goal).2 hng, if_true] at hb
    cases hb
  · have hpe : ¬ point_eq n goal = true := fun h => hng ((point_eq_iff n goal).1 h)
    simp only [hpe, hrem] at hb
    simp only [Bool.false_eq_true, if_false, Round.next.injEq] at hb
    obtain ⟨h1, h2, h3⟩ := relax_all_spec goal n (s.grid n.x n.y).g_score hg hn0 (by omega)
      (neighbours_from s.grid n) { s with open_set := rest } inv.pos rfl hws
    rw [hb] at h1 h2 h3
    have hexp : Expands goal s n s1 :=
      { grid_eq := h1
        mem_open := fun q => by rw [h2 q, ← hrmem q]
        nodup := h3 hrnd }
    exact ⟨n, hpop, hn, hng, hexp,
      search_inv_step grid0 start goal s s1 closed inv hs n hn hmin hng hexp⟩

theorem rounds_succ (goal : Point) (k : Nat) (s : State) :
    rounds goal (k + 1) s =
      if s.open_set.length > 0 then
        match loop_body goal s with
        | Round.next s1 => rounds goal k s1
        | _ => none
      else none := rfl

/-- A round that runs from `s` to `s1`, as a statement about `rounds`. -/
theorem rounds_one (goal : Point) (s s1 : State) (h : rounds goal 1 s = some s1) :
    s.open_set ≠ [] ∧ loop_body goal s = Round.next s1 := by
  rw [rounds_succ] at h
  split_ifs at h with ho
  refine ⟨List.length_pos.1 ho, ?_⟩
  cases hb : loop_body goal s with
  | next s2 =>
    rw [hb] at h
    simp only [rounds, Option.some.injEq] at h
    rw [h]
  | found => rw [hb] at h; cases h
  | assert_failed => rw [hb] at h; cases h
  | remove_failed => rw [hb] at h; cases h

/-- The invariant holds after any number of complete rounds; the expanded
cells are the popped points. -/
theorem rounds_inv (grid0 : Grid) (start goal : Point) (hs : InBounds start)
    (hg : InBounds goal) :
    ∀ (k : Nat) (s sk : State) (closed : List Point),
      SearchInv grid0 start goal s closed → rounds goal k s = some sk →
      SearchInv grid0 start goal sk ((popped goal k s).reverse ++ closed) ∧
      (popped goal k s).length = k := by
  intro k
  induction k with
  | zero =>
    intro s sk closed inv h
    simp only [rounds, Option.some.injEq] at h
    subst h
    exact ⟨by simpa [popped] using inv, rfl⟩
  | succ k ih =>
    intro s sk closed inv h
    rw [rounds_succ] at h
    split_ifs at h with ho
    have hne : s.open_set ≠ [] := List.length_pos.1 ho
    cases hb : loop_body goal s with
    | next s1 =>
      rw [hb] at h
      simp only at h
      obtain ⟨n, hpop, _, _, _, inv1⟩ :=
        search_inv_round grid0 start goal s s1 closed inv hs hg hne hb
      obtain ⟨i1, i2⟩ := ih s1 sk (n :: closed) inv1 h
      have hp : popped goal (k + 1) s = n :: popped goal k s1 := by
        simp only [popped, ho, if_true, hpop, hb]
      rw [hp]
      refine ⟨?_, by simp [i2]⟩
      simpa [List.reverse_cons, List.append_assoc] using i1
    | found => rw [hb] at h; cases h
    | assert_failed => rw [hb] at h; cases h
    | remove_failed => rw [hb] at h; cases h

/-- The invariant holds after any number of complete rounds of a search that
started on a fresh grid. -/
theorem rounds_init_inv (grid : Grid) (start goal : Point) (hs : InBounds start)
    (hg : InBounds goal) (hfresh : Fresh grid) (k : Nat) (sk : State)
    (hk : rounds goal k (init_search grid start goal) = some sk) :
    SearchInv grid start goal sk (popped goal k (init_search grid start goal)).reverse ∧
    (popped goal k (init_search grid start goal)).length = k := by
  have := rounds_inv grid start goal hs hg k _ sk []
    (search_inv_init grid start goal hs hg hfresh) hk
  simpa using this

/-- Claim C14: frontier invariant.  After the initialisation and after every
complete round of a search on a fresh grid, the points stored in the open set
are pairwise different, in bounds, and have `g_score < INT_MAX` and
`f_score < INT_MAX`; so for the point that is popped next,
`tentative_g_score = g_score + 1` does not overflow. -/
theorem frontier_invariant (grid : Grid) (start goal : Point) (hs : InBounds start)
    (hg : InBounds goal) (hfresh : Fresh grid) (k : Nat) (sk : State)
    (hk : rounds goal k (init_search grid start goal) = some sk) :
    sk.open_set.Nodup ∧
    (∀ p ∈ sk.open_set, InBounds p ∧ (sk.grid p.x p.y).g_score < INT_MAX ∧
      (sk.grid p.x p.y).f_score < INT_MAX) ∧
    ∀ n, get_point_with_lowest_f_score sk.grid sk.open_set = some n →
      (sk.grid n.x n.y).g_score + 1 ≤ INT_MAX ∧
      wrap_int ((sk.grid n.x n.y).g_score + 1) = (sk.grid n.x n.y).g_score + 1 := by
  obtain ⟨inv, _⟩ := rounds_init_inv grid start goal hs hg hfresh k sk hk
  have hcount := search_inv_count grid start goal sk _ inv
  have hbound : ∀ p ∈ sk.open_set, 0 ≤ (sk.grid p.x p.y).g_score ∧
      (sk.grid p.x p.y).g_score ≤ 450 := by
    intro p hp
    have := inv.g_range p (inv.open_in p hp) (inv.open_fin p hp)
    omega
  refine ⟨inv.open_nodup, ?_, ?_⟩
  · intro p hp
    have hpb := inv.open_in p hp
    have hpf := inv.open_fin p hp
    have hm := manhattan_bounds p goal hpb hg
    have := hbound p hp
    refine ⟨hpb, hpf, ?_⟩
    rw [inv.f_eq p hpb hpf, int_max_eq]
    omega
  · intro n hn
    have := hbound n (lowest_f_mem sk.grid sk.open_set n hn)
    rw [int_max_eq]
    exact ⟨by omega, wrap_int_eq _ (by omega) (by omega)⟩

/-- Claim C15: cost monotonicity.  Across every complete round of a search on a
fresh grid no `g_score` grows; a `g_score` that changes is replaced by the
strictly smaller tentative value `g_score + 1` of the popped point; and the
`g_score` of `start` is 0 before and after the round. -/
theorem g_score_monotone (grid : Grid) (start goal : Point) (hs : InBounds start)
    (hg : InBounds goal) (hfresh : Fresh grid) (k : Nat) (sk sk1 : State)
    (hk : rounds goal k (init_search grid start goal) = some sk)
    (h1 : rounds goal 1 sk = some sk1) :
    (∀ x y, (sk1.grid x y).g_score ≤ (sk.grid x y).g_score) ∧
    (∀ x y, (sk1.grid x y).g_score ≠ (sk.grid x y).g_score →
      ∃ n, get_point_with_lowest_f_score sk.grid sk.open_set = some n ∧
        (sk1.grid x y).g_score = (sk.grid n.x n.y).g_score + 1 ∧
        (sk1.grid x y).g_score < (sk.grid x y).g_score) ∧
    (sk.grid start.x start.y).g_score = 0 ∧ (sk1.grid start.x start.y).g_score = 0 := by
  obtain ⟨inv, _⟩ := rounds_init_inv grid start goal hs hg hfresh k sk hk
  obtain ⟨hne, hb⟩ := rounds_one goal sk sk1 h1
  obtain ⟨n, hpop, _, _, hexp, inv1⟩ :=
    search_inv_round grid start goal sk sk1 _ inv hs hg hne hb
  refine ⟨?_, ?_, inv.g_start, inv1.g_start⟩
  · intro x y
    have := hexp.grid_eq ⟨x, y⟩
    simp only at this
    rw [this]
    split_ifs with hc
    · simp only; omega
    · exact le_refl _
  · intro x y hne2
    have := hexp.grid_eq ⟨x, y⟩
    simp only at this
    rw [this] at hne2 ⊢
    split_ifs at hne2 ⊢ with hc
    · exact ⟨n, hpop, rfl, hc.2⟩
    · exact absurd rfl hne2

/-- Claim C17: f-score invariant.  After the initialisation and after every
complete round of a search on a fresh grid, every cell of the grid with
`g_score < INT_MAX` has `f_score = g_score + heuristic(cell, goal)`.  The
assignment that lowers a `g_score` is followed at once by the assignment of
`f_score`: after any round of the `for` loop, and after any complete round of
the search, a cell whose `g_score` has changed has the `f_score` computed from
its new `g_score`. -/
theorem f_score_invariant (grid : Grid) (start goal : Point) (hs : InBounds start)
    (hg : InBounds goal) (hfresh : Fresh grid) (k : Nat) (sk : State)
    (hk : rounds goal k (init_search grid start goal) = some sk) :
    (∀ p : Point, InBounds p → (sk.grid p.x p.y).g_score < INT_MAX →
      (sk.grid p.x p.y).f_score = (sk.grid p.x p.y).g_score + heuristic p goal) ∧
    (∀ (s : State) (pos nb : Point),
      ((relax goal pos s nb).grid nb.x nb.y).g_score ≠ (s.grid nb.x nb.y).g_score →
      ((relax goal pos s nb).grid nb.x nb.y).f_score =
        wrap_int (((relax goal pos s nb).grid nb.x nb.y).g_score +
          heuristic (s.grid nb.x nb.y).pos goal)) ∧
    ∀ sk1, rounds goal 1 sk = some sk1 → ∀ p : Point,
      (sk1.grid p.x p.y).g_score ≠ (sk.grid p.x p.y).g_score →
      (sk1.grid p.x p.y).f_score = (sk1.grid p.x p.y).g_score + heuristic p goal := by
  obtain ⟨inv, _⟩ := rounds_init_inv grid start goal hs hg hfresh k sk hk
  refine ⟨?_, ?_, ?_⟩
  · intro p hp hfin
    rw [heuristic_eq p goal hp hg]
    exact inv.f_eq p hp hfin
  · intro s pos nb hne
    unfold relax at hne ⊢
    simp only at hne ⊢
    split_ifs at hne ⊢ with hc
    · simp only [grid_set_same]
    · exact absurd rfl hne
  · intro sk1 h1 p hne2
    obtain ⟨hne, hb⟩ := rounds_one goal sk sk1 h1
    obtain ⟨n, _, hn, _, hexp, inv1⟩ :=
      search_inv_round grid start goal sk sk1 _ inv hs hg hne hb
    have hnb := inv.open_in n hn
    have := hexp.grid_eq p
    rw [this] at hne2 ⊢
    split_ifs at hne2 ⊢ with hc
    · have hpb := ((mem_neighbours_from sk.grid n p hnb).1 hc.1).2.1
      rw [heuristic_eq p goal hpb hg]
    · exact absurd rfl hne2

/-- Claim C19: no cell is expanded twice.  In a search on a fresh grid the
points popped in complete rounds are pairwise different, so after `k` rounds
with `c` points waiting in the open set `k + c ≤ GRID_W * GRID_H`: the loop
performs at most 450 rounds.  With the `max_steps = 9999` of `main` the search
therefore never reports "Bailed out.": if it fails, `max_steps` is still
positive and the open set is empty. -/
theorem search_rounds_bounded (grid : Grid) (start goal : Point) (hs : InBounds start)
    (hg : InBounds goal) (hfresh : Fresh grid) :
    (∀ k sk, rounds goal k (init_search grid start goal) = some sk →
      (popped goal k (init_search grid start goal)).Nodup ∧
      (popped goal k (init_search grid start goal)).length = k ∧
      (k : Int) + sk.open_set.length ≤ MAX_NODE_COUNT) ∧
    report (search grid start goal 9999) ≠ Report.BudgetExceeded ∧
    report (search grid start goal 9999) ≠ Report.Crash ∧
    ∀ m s, search grid start goal 9999 = Outcome.failed m s →
      0 < m ∧ 9999 - m ≤ MAX_NODE_COUNT ∧ s.open_set = [] := by
  have hfail : ∀ m s, search grid start goal 9999 = Outcome.failed m s →
      0 < m ∧ 9999 - m ≤ MAX_NODE_COUNT ∧ s.open_set = [] := by
    intro m s h
    rcases search_inv grid start goal 9999 hs hg hfresh with
      ⟨s1, closed, h1, _⟩ | ⟨s1, closed, m1, h1, inv, hm, hend⟩
    · rw [h] at h1; cases h1
    · rw [h] at h1
      cases h1
      have hcount := search_inv_count grid start goal s closed inv
      rw [max_node_count_eq]
      have hm0 : 0 < m := by omega
      refine ⟨hm0, by omega, ?_⟩
      rcases hend with h2 | h2
      · exact h2
      · omega
  refine ⟨?_, ?_, ?_, hfail⟩
  · intro k sk hk
    obtain ⟨inv, hlen⟩ := rounds_init_inv grid start goal hs hg hfresh k sk hk
    have hcount := search_inv_count grid start goal sk _ inv
    refine ⟨List.nodup_reverse.1 inv.closed_nodup, hlen, ?_⟩
    rw [List.length_reverse, hlen] at hcount
    rw [max_node_count_eq]
    exact hcount
  · rcases search_inv grid start goal 9999 hs hg hfresh with
      ⟨s1, closed, h1, _⟩ | ⟨s1, closed, m1, h1, _⟩
    · rw [h1]; simp [report]
    · have := (hfail m1 s1 h1).1
      rw [h1]
      simp only [report]
      rw [if_neg (by omega)]
      simp
  · rcases search_inv grid start goal 9999 hs hg hfresh with
      ⟨s1, closed, h1, _⟩ | ⟨s1, closed, m1, h1, _⟩
    · rw [h1]; simp [report]
    · rw [h1]
      simp only [report]
      split_ifs <;> simp

/-! ## Inside a round -/

theorem relax_all_append (goal pos : Point) (l1 l2 : List Point) :
    ∀ s : State, relax_all goal pos s (l1 ++ l2) =
      relax_all goal pos (relax_all goal pos s l1) l2 := by
  induction l1 with
  | nil => intro s; rfl
  | cons w rest ih => intro s; simp only [List.cons_append, relax_all]; exact ih _

/-- One round of the `for` loop leaves the open set as it is or stores one
point behind its last entry. -/
theorem relax_open_set (goal pos nb : Point) (s : State) :
    (relax goal pos s nb).open_set = s.open_set ∨
    ∃ p, (relax goal pos s nb).open_set = s.open_set ++ [p] := by
  unfold relax
  simp only
  split_ifs with hc
  · simp only [add_to_open_set]
    split_ifs
    · exact Or.inl rfl
    · exact Or.inr ⟨_, rfl⟩
  · exact Or.inl rfl

/-- From one point inside a round to the next: nothing happens (the `for` loop
is over) or one more neighbour is relaxed. -/
theorem for_loop_state_succ (goal : Point) (s sm sm1 : State) (j : Nat)
    (hj : for_loop_state goal s j = some sm) (hj1 : for_loop_state goal s (j + 1) = some sm1) :
    sm1 = sm ∨ ∃ pos nb, sm1 = relax goal pos sm nb := by
  unfold for_loop_state at hj hj1
  cases hpop : get_point_with_lowest_f_score s.grid s.open_set with
  | none => rw [hpop] at hj; cases hj
  | some pos =>
    rw [hpop] at hj hj1
    simp only at hj hj1
    split_ifs at hj hj1 with hpe
    cases hrem : remove_from_open_set pos s.open_set with
    | none => rw [hrem] at hj; cases hj
    | some rest =>
      rw [hrem] at hj hj1
      simp only [Option.some.injEq] at hj hj1
      rw [List.take_succ, relax_all_append, hj] at hj1
      cases hw : (neighbours_from s.grid pos)[j]? with
      | none =>
        rw [hw] at hj1
        left
        simpa [relax_all] using hj1.symm
      | some w =>
        rw [hw] at hj1
        right
        exact ⟨pos, w, by simpa [relax_all] using hj1.symm⟩

/-- The state inside a round, in terms of the state at its beginning. -/
theorem for_loop_state_spec (grid0 : Grid) (start goal : Point) (s sm : State)
    (closed : List Point) (inv : SearchInv grid0 start goal s closed) (hg : InBounds goal)
    (j : Nat) (hj : for_loop_state goal s j = some sm) :
    ∃ n rest, n ∈ s.open_set ∧ InBounds n ∧ (s.grid n.x n.y).g_score ≤ 450 ∧
      (∀ q, q ∈ rest → q ∈ s.open_set) ∧
      sm = relax_all goal n { s with open_set := rest } ((neighbours_from s.grid n).take j) ∧
      (∀ p : Point, sm.grid p.x p.y =
        if p ∈ (neighbours_from s.grid n).take j ∧
            (s.grid n.x n.y).g_score + 1 < (s.grid p.x p.y).g_score then
          { s.grid p.x p.y with
            came_from := n
            g_score := (s.grid n.x n.y).g_score + 1
            f_score := (s.grid n.x n.y).g_score + 1 + manhattan p goal }
        else s.grid p.x p.y) ∧
      (∀ q, q ∈ sm.open_set → q ∈ rest ∨ q ∈ neighbours_from s.grid n) ∧
      sm.open_set.Nodup := by
  have hne : s.open_set ≠ [] := by
    intro h
    unfold for_loop_state at hj
    rw [h, lowest_f_none s.grid [] (by simp)] at hj
    cases hj
  obtain ⟨n, rest, hpop, hn, _, hrem, hrnd, hrmem, hnb, hn0, hn1, hws⟩ :=
    search_inv_pop grid0 start goal s closed inv hg hne
  unfold for_loop_state at hj
  rw [hpop] at hj
  simp only [hrem] at hj
  split_ifs at hj with hpe
  simp only [Option.some.injEq] at hj
  have hws2 : ∀ w ∈ (neighbours_from s.grid n).take j, InBounds w ∧ w ≠ n :=
    fun w hw => hws w (List.mem_of_mem_take hw)
  obtain ⟨h1, h2, h3⟩ := relax_all_spec goal n (s.grid n.x n.y).g_score hg hn0 (by omega)
    ((neighbours_from s.grid n).take j) { s with open_set := rest } inv.pos rfl hws2
  rw [hj] at h1 h2 h3
  refine ⟨n, rest, hn, hnb, hn1, fun q hq => ((hrmem q).1 hq).1, hj.symm, h1, ?_, h3 hrnd⟩
  intro q hq
  rcases (h2 q).1 hq with h | h
  · exact Or.inl h
  · exact Or.inr (List.mem_of_mem_take h.1)

/-- A relaxation of neighbours of `n` keeps the predecessor/cost relation. -/
theorem predecessor_ok_relaxed (start goal n : Point) (grid grid1 : Grid) (ws : List Point)
    (hn : InBounds n) (hG : (grid n.x n.y).g_score ≤ 450)
    (hws : ∀ w ∈ ws, w ∈ neighbours_from grid n)
    (hgrid : ∀ p : Point, grid1 p.x p.y =
      if p ∈ ws ∧ (grid n.x n.y).g_score + 1 < (grid p.x p.y).g_score then
        { grid p.x p.y with
          came_from := n
          g_score := (grid n.x n.y).g_score + 1
          f_score := (grid n.x n.y).g_score + 1 + manhattan p goal }
      else grid p.x p.y)
    (hok : PredecessorOk start grid) : PredecessorOk start grid1 := by
  intro p hp hps
  rw [hgrid p]
  split_ifs with hc
  · right
    have hadj := (mem_neighbours_from grid n p hn).1 (hws p hc.1)
    simp only
    rw [int_max_eq]
    exact ⟨by omega, hn, hadj.1⟩
  · exact hok p hp hps

/-- The predecessor/cost relation holds after any number of complete rounds. -/
theorem rounds_predecessor_ok (grid0 : Grid) (start goal : Point) (hs : InBounds start)
    (hg : InBounds goal) :
    ∀ (k : Nat) (s sk : State) (closed : List Point),
      SearchInv grid0 start goal s closed → PredecessorOk start s.grid →
      rounds goal k s = some sk → PredecessorOk start sk.grid := by
  intro k
  induction k with
  | zero =>
    intro s sk closed _ hok h
    simp only [rounds, Option.some.injEq] at h
    subst h
    exact hok
  | succ k ih =>
    intro s sk closed inv hok h
    rw [rounds_succ] at h
    split_ifs at h with ho
    have hne : s.open_set ≠ [] := List.length_pos.1 ho
    cases hb : loop_body goal s with
    | next s1 =>
      rw [hb] at h
      simp only at h
      obtain ⟨n, _, hn, _, hexp, inv1⟩ :=
        search_inv_round grid0 start goal s s1 closed inv hs hg hne hb
      have hnb := inv.open_in n hn
      have hcount := search_inv_count grid0 start goal s closed inv
      have hnr := inv.g_range n hnb (inv.open_fin n hn)
      have hok1 : PredecessorOk start s1.grid :=
        predecessor_ok_relaxed start goal n s.grid s1.grid (neighbours_from s.grid n) hnb
          (by omega) (fun w hw => hw) hexp.grid_eq hok
      exact ih s1 sk (n :: closed) inv1 hok1 h
    | found => rw [hb] at h; cases h
    | assert_failed => rw [hb] at h; cases h
    | remove_failed => rw [hb] at h; cases h

/-- The predecessor/cost relation holds on a fresh grid and at loop entry. -/
theorem init_predecessor_ok (grid : Grid) (start goal : Point) (hfresh : Fresh grid) :
    PredecessorOk start grid ∧ PredecessorOk start (init_search grid start goal).grid := by
  constructor
  · intro p hp _
    exact Or.inl ⟨(hfresh p hp).2.2, (hfresh p hp).2.1⟩
  · intro p hp hps
    rw [init_search_grid_other grid start goal p hps]
    exact Or.inl ⟨(hfresh p hp).2.2, (hfresh p hp).2.1⟩

/-- Claim C16: predecessor/cost invariant.  At every point of a search on a
fresh grid (on the fresh grid itself, after the initialisation, after every
complete round, and inside a round after any number of rounds of its `for`
loop) every cell of the grid other than `start` whose `came_from` is
`(-1, -1)` has `g_score = INT_MAX`, and every such cell with
`g_score < INT_MAX` has a `came_from` that is a cell of the grid orthogonally
adjacent to it. -/
theorem predecessor_cost_invariant (grid : Grid) (start goal : Point) (hs : InBounds start)
    (hg : InBounds goal) (hfresh : Fresh grid) (k : Nat) (sk : State)
    (hk : rounds goal k (init_search grid start goal) = some sk) :
    ∀ g : Grid, (g = grid ∨ g = sk.grid ∨ ∃ j sm, for_loop_state goal sk j = some sm ∧ g = sm.grid) →
      ∀ p : Point, InBounds p → p ≠ start →
        ((g p.x p.y).came_from = ⟨-1, -1⟩ → (g p.x p.y).g_score = INT_MAX) ∧
        ((g p.x p.y).g_score < INT_MAX →
          InBounds (g p.x p.y).came_from ∧ Adjacent (g p.x p.y).came_from p) := by
  have hform : ∀ g : Grid, PredecessorOk start g → ∀ p : Point, InBounds p → p ≠ start →
      ((g p.x p.y).came_from = ⟨-1, -1⟩ → (g p.x p.y).g_score = INT_MAX) ∧
      ((g p.x p.y).g_score < INT_MAX →
        InBounds (g p.x p.y).came_from ∧ Adjacent (g p.x p.y).came_from p) := by
    intro g hok p hp hps
    rcases hok p hp hps with ⟨h1, _⟩ | ⟨_, h2, h3⟩
    · exact ⟨fun _ => h1, fun h => by omega⟩
    · refine ⟨fun h => ?_, fun _ => ⟨h2, h3⟩⟩
      rw [h] at h2
      exact absurd h2 (by decide)
  obtain ⟨hok0, hok1⟩ := init_predecessor_ok grid start goal hfresh
  obtain ⟨inv, _⟩ := rounds_init_inv grid start goal hs hg hfresh k sk hk
  have hokk : PredecessorOk start sk.grid :=
    rounds_predecessor_ok grid start goal hs hg k _ sk []
      (search_inv_init grid start goal hs hg hfresh) hok1 hk
  intro g hcase
  apply hform
  rcases hcase with rfl | rfl | ⟨j, sm, hj, rfl⟩
  · exact hok0
  · exact hokk
  · obtain ⟨n, rest, _, hnb, hn1, _, _, hgrid, _, _⟩ :=
      for_loop_state_spec grid start goal sk sm _ inv hg j hj
    exact predecessor_ok_relaxed start goal n sk.grid sm.grid _ hnb hn1
      (fun w hw => List.mem_of_mem_take hw) hgrid hokk

/-- Claim C20: the open set stays inside its array.  Throughout a search on a
fresh grid that starts with an empty open set (at loop entry, after every
complete round, and inside a round after any number of rounds of its `for`
loop) the open set holds pairwise different cells of the grid, so
`open_set_count ≤ MAX_NODE_COUNT`; and whenever a round of the `for` loop
stores a point, it stores it at an index below `MAX_NODE_COUNT`. -/
theorem open_set_within_capacity (grid : Grid) (start goal : Point) (hs : InBounds start)
    (hg : InBounds goal) (hfresh : Fresh grid) (k : Nat) (sk : State)
    (hk : rounds goal k (init_search grid start goal) = some sk) :
    (init_search grid start goal).open_set = [] ++ [start] ∧
    (sk.open_set.Nodup ∧ (∀ p ∈ sk.open_set, InBounds p) ∧
      (sk.open_set.length : Int) ≤ MAX_NODE_COUNT) ∧
    ∀ j sm, for_loop_state goal sk j = some sm →
      sm.open_set.Nodup ∧ (∀ p ∈ sm.open_set, InBounds p) ∧
      (sm.open_set.length : Int) ≤ MAX_NODE_COUNT ∧
      ∀ sm1, for_loop_state goal sk (j + 1) = some sm1 →
        sm1.open_set = sm.open_set ∨
        ∃ p, sm1.open_set = sm.open_set ++ [p] ∧
          (sm.open_set.length : Int) < MAX_NODE_COUNT := by
  obtain ⟨inv, _⟩ := rounds_init_inv grid start goal hs hg hfresh k sk hk
  have hstate : ∀ j sm, for_loop_state goal sk j = some sm →
      sm.open_set.Nodup ∧ (∀ p ∈ sm.open_set, InBounds p) ∧
      (sm.open_set.length : Int) ≤ MAX_NODE_COUNT := by
    intro j sm hj
    obtain ⟨n, rest, _, hnb, _, hrest, _, _, hmem, hnd⟩ :=
      for_loop_state_spec grid start goal sk sm _ inv hg j hj
    have hin : ∀ p ∈ sm.open_set, InBounds p := by
      intro p hp
      rcases hmem p hp with h | h
      · exact inv.open_in p (hrest p h)
      · exact ((mem_neighbours_from sk.grid n p hnb).1 h).2.1
    exact ⟨hnd, hin, in_bounds_nodup_length _ hnd hin⟩
  refine ⟨by rw [init_search_open]; rfl,
    ⟨inv.open_nodup, inv.open_in, in_bounds_nodup_length _ inv.open_nodup inv.open_in⟩, ?_⟩
  intro j sm hj
  obtain ⟨h1, h2, h3⟩ := hstate j sm hj
  refine ⟨h1, h2, h3, ?_⟩
  intro sm1 hj1
  obtain ⟨_, _, hlen1⟩ := hstate (j + 1) sm1 hj1
  rcases for_loop_state_succ goal sk sm sm1 j hj hj1 with rfl | ⟨pos, nb, rfl⟩
  · exact Or.inl rfl
  · rcases relax_open_set goal pos nb sm with h | ⟨p, h⟩
    · exact Or.inl h
    · right
      refine ⟨p, h, ?_⟩
      rw [h, List.length_append, List.length_singleton] at hlen1
      push_cast at hlen1
      omega

/-! ## The predecessor chain -/

/-- From a cell with a finite `g_score` the `came_from` links lead to `start`
in `g_score` steps, through cells of the grid whose `g_score` drops by one
per step. -/
theorem follow_came_from_spec (grid0 : Grid) (start goal : Point) (s : State)
    (closed : List Point) (inv : SearchInv grid0 start goal s closed) :
    ∀ (k : Nat) (p : Point), InBounds p → (s.grid p.x p.y).g_score < INT_MAX →
      (s.grid p.x p.y).g_score = k →
      follow_came_from s.grid k p = start ∧
      ∀ j, j ≤ k → InBounds (follow_came_from s.grid j p) ∧
        (s.grid (follow_came_from s.grid j p).x (follow_came_from s.grid j p).y).g_score =
          (k : Int) - j := by
  intro k
  induction k with
  | zero =>
    intro p hp _ hgp
    have hps : p = start :=
      search_inv_g_zero grid0 start goal s closed inv p hp (by simpa using hgp)
    refine ⟨hps, ?_⟩
    intro j hj
    have : j = 0 := by omega
    subst this
    exact ⟨hp, by simpa [follow_came_from] using hgp⟩
  | succ k ih =>
    intro p hp hfin hgp
    have hps : p ≠ start := by
      intro e
      rw [e, inv.g_start] at hgp
      push_cast at hgp
      omega
    obtain ⟨c1, c2, _⟩ := inv.came p hp hfin hps
    have hc := (inv.closed_iff _).1 c1
    have hgu : (s.grid (s.grid p.x p.y).came_from.x (s.grid p.x p.y).came_from.y).g_score
        = (k : Nat) := by
      rw [hgp] at c2
      push_cast at c2
      omega
    obtain ⟨h1, h2⟩ := ih (s.grid p.x p.y).came_from hc.1 hc.2.1 hgu
    refine ⟨h1, ?_⟩
    intro j hj
    cases j with
    | zero => exact ⟨hp, by simpa [follow_came_from] using hgp⟩
    | succ j =>
      obtain ⟨h3, h4⟩ := h2 j (by omega)
      refine ⟨h3, ?_⟩
      simp only [follow_came_from]
      rw [h4]
      push_cast
      ring

/-- Claim C13: unbroken predecessor chain.  In every state in which a search on
a fresh grid pops the goal, following `came_from` from the goal reaches
`start` after `g_score(goal)` steps; every cell on the way is a cell of the
grid, never the sentinel `(-1, -1)`, and the `g_score` drops by one with every
link.  Hence the assertion `pos.x > -1 && pos.y > -1` of `reconstruct_path`
holds in every round and its loop terminates. -/
theorem came_from_chain_unbroken (grid : Grid) (start goal : Point) (budget : Int)
    (s : State) (hs : InBounds start) (hg : InBounds goal) (hfresh : Fresh grid)
    (hfound : search grid start goal budget = Outcome.found s) :
    ∃ k : Nat, (s.grid goal.x goal.y).g_score = k ∧
      follow_came_from s.grid k goal = start ∧
      (∀ j, j ≤ k →
        InBounds (follow_came_from s.grid j goal) ∧
        follow_came_from s.grid j goal ≠ ⟨-1, -1⟩ ∧
        (follow_came_from s.grid j goal).x > -1 ∧ (follow_came_from s.grid j goal).y > -1 ∧
        (s.grid (follow_came_from s.grid j goal).x (follow_came_from s.grid j goal).y).g_score
          = (k : Int) - j) ∧
      (∀ j, j < k →
        (s.grid (follow_came_from s.grid (j + 1) goal).x
          (follow_came_from s.grid (j + 1) goal).y).g_score <
        (s.grid (follow_came_from s.grid j goal).x
          (follow_came_from s.grid j goal).y).g_score) ∧
      ∀ fuel, k ≤ fuel →
        ∃ grid1 path, reconstruct_path fuel s.grid start goal = some (grid1, path) := by
  rcases search_inv grid start goal budget hs hg hfresh with
    ⟨s1, closed, h1, inv, hgo, _⟩ | ⟨s1, closed, m, h1, _⟩
  · rw [hfound] at h1
    cases h1
    have hgb := inv.open_in goal hgo
    have hfin := inv.open_fin goal hgo
    have hr := inv.g_range goal hgb hfin
    obtain ⟨k, hk⟩ : ∃ k : Nat, (s.grid goal.x goal.y).g_score = k :=
      ⟨(s.grid goal.x goal.y).g_score.toNat, by omega⟩
    obtain ⟨h2, h3⟩ := follow_came_from_spec grid start goal s closed inv k goal hgb hfin hk
    refine ⟨k, hk, h2, ?_, ?_, ?_⟩
    · intro j hj
      obtain ⟨h4, h5⟩ := h3 j hj
      have h6 := h4
      unfold InBounds at h6
      refine ⟨h4, ?_, by omega, by omega, h5⟩
      intro e
      rw [e] at h6
      simp only at h6
      omega
    · intro j hj
      rw [(h3 j (by omega)).2, (h3 (j + 1) (by omega)).2]
      push_cast
      omega
    · intro fuel hfuel
      obtain ⟨moves, hrec, _, hlen, _⟩ := reconstruct_path_spec grid start goal s closed inv hgo
      have hmk : moves.length = k := by
        rw [hk] at hlen
        exact_mod_cast hlen
      obtain ⟨grid1, hg1⟩ := hrec fuel (by omega)
      exact ⟨grid1, _, hg1⟩
  · rw [hfound] at h1
    cases h1

/-! ## Concrete runs -/

/-- Claim C4 at a concrete input: the start of `main` taken as goal as well. -/
theorem search_start_eq_goal_witness :
    InBounds ⟨1, 1⟩ ∧ (1 : Int) ≤ 9999 ∧
    search no_walls ⟨1, 1⟩ ⟨1, 1⟩ 9999 = Outcome.found (init_search no_walls ⟨1, 1⟩ ⟨1, 1⟩) :=
  ⟨by decide, by decide, (search_start_eq_goal no_walls ⟨1, 1⟩ 9999 (by decide) (by decide)).1⟩

/-- Claim C5 fails as stated: on a grid without walkable cells and with budget 1,
the only round empties the open set and uses up the budget, and the loop is
left with an empty open set while "Bailed out." is reported. -/
theorem search_failure_report_counterexample :
    (0 : Int) < 1 ∧
    search all_walls ⟨1, 1⟩ ⟨28, 13⟩ 1 =
      Outcome.failed 0 ⟨(init_search all_walls ⟨1, 1⟩ ⟨28, 13⟩).grid, []⟩ ∧
    report (search all_walls ⟨1, 1⟩ ⟨28, 13⟩ 1) = Report.BudgetExceeded ∧
    report (search all_walls ⟨1, 1⟩ ⟨28, 13⟩ 1) ≠ Report.NoPathFound :=
  ⟨by decide, rfl, rfl, by decide⟩

/-- Claim C5, amended, at a concrete input: the same grid with budget 5. -/
theorem search_failure_report_witness :
    (0 : Int) < 5 ∧
    search all_walls ⟨1, 1⟩ ⟨28, 13⟩ 5 =
      Outcome.failed 4 ⟨(init_search all_walls ⟨1, 1⟩ ⟨28, 13⟩).grid, []⟩ ∧
    report (search all_walls ⟨1, 1⟩ ⟨28, 13⟩ 5) = Report.NoPathFound :=
  ⟨by decide, rfl,
    ((search_failure_report all_walls ⟨1, 1⟩ ⟨28, 13⟩ 5 4
      ⟨(init_search all_walls ⟨1, 1⟩ ⟨28, 13⟩).grid, []⟩ (by decide) rfl).2.1 (by decide)).2⟩

/-- Claim C6 at a concrete input: a grid without walls, the start and goal of
`main`, budget 1. -/
theorem search_budget_exceeded_witness :
    1 ≤ 1 ∧ needs_more_rounds ⟨28, 13⟩ 1 (init_search no_walls ⟨1, 1⟩ ⟨28, 13⟩) = true ∧
    report (search no_walls ⟨1, 1⟩ ⟨28, 13⟩ (1 : Nat)) = Report.BudgetExceeded :=
  ⟨by decide, by decide,
    (search_budget_exceeded no_walls ⟨1, 1⟩ ⟨28, 13⟩ 1 (by decide) (by decide)).elim
      (fun _ h => h.2.2.1)⟩

/-- Claim C7 fails as stated: with budget 0 the report is `BudgetExceeded`, with
budget -1 it is `NoPathFound`, and in both runs the start node has been
initialised and put into the open set. -/
theorem search_nonpositive_budget_counterexample :
    report (search no_walls ⟨1, 1⟩ ⟨28, 13⟩ 0) = Report.BudgetExceeded ∧
    report (search no_walls ⟨1, 1⟩ ⟨28, 13⟩ (-1)) = Report.NoPathFound ∧
    (no_walls 1 1).g_score = INT_MAX ∧
    search no_walls ⟨1, 1⟩ ⟨28, 13⟩ 0 = Outcome.failed 0 (init_search no_walls ⟨1, 1⟩ ⟨28, 13⟩) ∧
    ((init_search no_walls ⟨1, 1⟩ ⟨28, 13⟩).grid 1 1).g_score = 0 ∧
    (init_search no_walls ⟨1, 1⟩ ⟨28, 13⟩).open_set = [⟨1, 1⟩] :=
  ⟨by decide, by decide, by decide, rfl, by decide, by decide⟩

/-- Claim C7, amended, at a concrete input: budget -3. -/
theorem search_nonpositive_budget_witness :
    (-3 : Int) ≤ 0 ∧ report (search no_walls ⟨1, 1⟩ ⟨28, 13⟩ (-3)) = Report.NoPathFound :=
  ⟨by decide, (search_nonpositive_budget no_walls ⟨1, 1⟩ ⟨28, 13⟩ (-3) (by decide)).2⟩

/-- Claim C9 fails as stated: a non-empty open set of in-bounds points whose only
entry has `f_score = INT_MAX` makes the assertion fail. -/
theorem get_point_with_lowest_f_score_counterexample :
    ([⟨1, 1⟩] : List Point) ≠ [] ∧ (∀ q ∈ ([⟨1, 1⟩] : List Point), InBounds q) ∧
    get_point_with_lowest_f_score f_at_int_max [⟨1, 1⟩] = none :=
  ⟨by decide, by decide, by decide⟩

/-- Claim C9, amended, at a concrete input. -/
theorem get_point_with_lowest_f_score_witness :
    (∀ q ∈ ([⟨1, 1⟩, ⟨2, 1⟩] : List Point), InBounds q) ∧
    (get_point_with_lowest_f_score no_walls [⟨1, 1⟩, ⟨2, 1⟩] = none ↔
      ∀ q ∈ ([⟨1, 1⟩, ⟨2, 1⟩] : List Point), INT_MAX ≤ (no_walls q.x q.y).f_score) :=
  ⟨by decide, (get_point_with_lowest_f_score_spec no_walls [⟨1, 1⟩, ⟨2, 1⟩] (by decide)).2⟩

/-- Claim C10 at a concrete input. -/
theorem remove_from_open_set_witness :
    ([⟨1, 1⟩, ⟨2, 1⟩, ⟨1, 2⟩] : List Point).Nodup ∧
    (remove_from_open_set ⟨1, 1⟩ [⟨1, 1⟩, ⟨2, 1⟩, ⟨1, 2⟩] = none ↔
      (⟨1, 1⟩ : Point) ∉ ([⟨1, 1⟩, ⟨2, 1⟩, ⟨1, 2⟩] : List Point)) :=
  ⟨by decide, (remove_from_open_set_spec ⟨1, 1⟩ [⟨1, 1⟩, ⟨2, 1⟩, ⟨1, 2⟩] (by decide)).2⟩

/-- Claim C1 at a concrete input: the wall with a gap of the specification's
scenario, from `(0, 0)` to `(4, 4)` with the budget of `main`. -/
theorem search_optimal_witness :
    InBounds ⟨0, 0⟩ ∧ InBounds ⟨4, 4⟩ ∧ (wall_with_gap 0 0).walkable = true ∧
    Fresh wall_with_gap ∧
    Route wall_with_gap ⟨0, 0⟩ ⟨4, 4⟩
      [⟨0, 1⟩, ⟨0, 2⟩, ⟨1, 2⟩, ⟨2, 2⟩, ⟨3, 2⟩, ⟨4, 2⟩, ⟨4, 3⟩, ⟨4, 4⟩] ∧
    MAX_NODE_COUNT ≤ 9999 ∧
    ∃ (s : State) (path best : List Point),
      search wall_with_gap ⟨0, 0⟩ ⟨4, 4⟩ 9999 = Outcome.found s ∧
      Route wall_with_gap ⟨0, 0⟩ ⟨4, 4⟩ best ∧
      (∀ moves, Route wall_with_gap ⟨0, 0⟩ ⟨4, 4⟩ moves → best.length ≤ moves.length) ∧
      (s.grid 4 4).g_score = best.length ∧
      path.length = best.length + 1 ∧
      ∀ fuel, best.length ≤ fuel →
        ∃ grid1, reconstruct_path fuel s.grid ⟨0, 0⟩ ⟨4, 4⟩ = some (grid1, path) :=
  ⟨by decide, by decide, by decide, fresh_grid_fresh _, by decide, by decide,
    search_optimal wall_with_gap ⟨0, 0⟩ ⟨4, 4⟩ 9999 (by decide) (by decide) (by decide)
      (fresh_grid_fresh _)
      ⟨[⟨0, 1⟩, ⟨0, 2⟩, ⟨1, 2⟩, ⟨2, 2⟩, ⟨3, 2⟩, ⟨4, 2⟩, ⟨4, 3⟩, ⟨4, 4⟩], by decide⟩
      (by decide)⟩

/-- Claim C2 at a concrete input: the same search, which succeeds in its 17th
round. -/
theorem reconstruct_path_valid_witness :
    InBounds ⟨0, 0⟩ ∧ InBounds ⟨4, 4⟩ ∧ (wall_with_gap 0 0).walkable = true ∧
    Fresh wall_with_gap ∧
    search wall_with_gap ⟨0, 0⟩ ⟨4, 4⟩ 9999 =
      Outcome.found ((rounds ⟨4, 4⟩ 16 (init_search wall_with_gap ⟨0, 0⟩ ⟨4, 4⟩)).getD
        (init_search wall_with_gap ⟨0, 0⟩ ⟨4, 4⟩)) ∧
    ∃ path : List Point,
      (∀ fuel, path.length ≤ fuel + 1 →
        ∃ grid1, reconstruct_path fuel
          ((rounds ⟨4, 4⟩ 16 (init_search wall_with_gap ⟨0, 0⟩ ⟨4, 4⟩)).getD
            (init_search wall_with_gap ⟨0, 0⟩ ⟨4, 4⟩)).grid ⟨0, 0⟩ ⟨4, 4⟩ =
          some (grid1, path)) ∧
      path.head? = some ⟨0, 0⟩ ∧ path.getLast? = some ⟨4, 4⟩ ∧ path.Nodup :=
  ⟨by decide, by decide, by decide, fresh_grid_fresh _, rfl,
    (reconstruct_path_valid wall_with_gap ⟨0, 0⟩ ⟨4, 4⟩ 9999 _ (by decide) (by decide)
      (by decide) (fresh_grid_fresh _) rfl).imp
      (fun _ h => ⟨h.1, h.2.1, h.2.2.1, h.2.2.2.2.2⟩)⟩

/-- Claim C3 at a concrete input: the full wall of the specification's scenario
between `(0, 0)` and `(4, 4)`. -/
theorem search_unreachable_witness :
    InBounds ⟨0, 0⟩ ∧ InBounds ⟨4, 4⟩ ∧ (⟨0, 0⟩ : Point) ≠ ⟨4, 4⟩ ∧ Fresh wall_at_2 ∧
    (∀ moves, ¬ Route wall_at_2 ⟨0, 0⟩ ⟨4, 4⟩ moves) ∧
    report (search wall_at_2 ⟨0, 0⟩ ⟨4, 4⟩ 9999) = Report.NoPathFound :=
  have hno : ∀ moves, ¬ Route wall_at_2 ⟨0, 0⟩ ⟨4, 4⟩ moves := fun moves h => by
    have h1 := wall_at_2_left moves ⟨0, 0⟩ (by decide) h.1
    rw [h.2] at h1
    exact absurd h1 (by decide)
  ⟨by decide, by decide, by decide, fresh_grid_fresh _, hno,
    ((search_unreachable wall_at_2 ⟨0, 0⟩ ⟨4, 4⟩ (by decide) (by decide) (by decide)
      (fresh_grid_fresh _) hno).2 9999 (by decide)).elim
      (fun _ h => h.elim (fun _ h2 => h2.2.2.2))⟩

/-- The scenarios of the specification, run on the model: through the gap the
goal is found in the 17th round with `g_score = 8`, that is a path of 9 cells;
with the gap closed the report is the plain "Failed to find a path." -/
theorem scenario_runs :
    search wall_with_gap ⟨0, 0⟩ ⟨4, 4⟩ 9999 =
      Outcome.found ((rounds ⟨4, 4⟩ 16 (init_search wall_with_gap ⟨0, 0⟩ ⟨4, 4⟩)).getD
        (init_search wall_with_gap ⟨0, 0⟩ ⟨4, 4⟩)) ∧
    (((rounds ⟨4, 4⟩ 16 (init_search wall_with_gap ⟨0, 0⟩ ⟨4, 4⟩)).getD
        (init_search wall_with_gap ⟨0, 0⟩ ⟨4, 4⟩)).grid 4 4).g_score = 8 ∧
    (reconstruct_path 8 ((rounds ⟨4, 4⟩ 16 (init_search wall_with_gap ⟨0, 0⟩ ⟨4, 4⟩)).getD
        (init_search wall_with_gap ⟨0, 0⟩ ⟨4, 4⟩)).grid ⟨0, 0⟩ ⟨4, 4⟩).map Prod.snd =
      some [⟨0, 0⟩, ⟨1, 0⟩, ⟨1, 1⟩, ⟨1, 2⟩, ⟨2, 2⟩, ⟨3, 2⟩, ⟨4, 2⟩, ⟨4, 3⟩, ⟨4, 4⟩] ∧
    report (search wall_at_2 ⟨0, 0⟩ ⟨4, 4⟩ 9999) = Report.NoPathFound :=
  ⟨rfl, by decide, by decide, by decide⟩

/-- Claim C11 at a concrete input: from `(0, 0)` to `(4, 4)` through the gap. -/
theorem heuristic_admissible_witness :
    InBounds ⟨0, 0⟩ ∧ InBounds ⟨4, 4⟩ ∧
    Route wall_with_gap ⟨0, 0⟩ ⟨4, 4⟩
      [⟨0, 1⟩, ⟨0, 2⟩, ⟨1, 2⟩, ⟨2, 2⟩, ⟨3, 2⟩, ⟨4, 2⟩, ⟨4, 3⟩, ⟨4, 4⟩] ∧
    heuristic ⟨0, 0⟩ ⟨4, 4⟩ = |(4 : Int) - 0| + |(4 : Int) - 0| ∧
    heuristic ⟨0, 0⟩ ⟨4, 4⟩ ≤ (8 : Nat) :=
  ⟨by decide, by decide, by decide,
    (heuristic_admissible wall_with_gap ⟨0, 0⟩ ⟨4, 4⟩ (by decide) (by decide)).1,
    (heuristic_admissible wall_with_gap ⟨0, 0⟩ ⟨4, 4⟩ (by decide) (by decide)).2.2
      [⟨0, 1⟩, ⟨0, 2⟩, ⟨1, 2⟩, ⟨2, 2⟩, ⟨3, 2⟩, ⟨4, 2⟩, ⟨4, 3⟩, ⟨4, 4⟩] (by decide)⟩

/-- Claim C12 at a concrete input: the reconstruction after the search through
the gap, and a second call on the grid it leaves. -/
theorem reconstruct_path_frame_witness :
    reconstruct_path 8 gap_state.grid ⟨0, 0⟩ ⟨4, 4⟩ =
      some (gap_marked,
        [⟨0, 0⟩, ⟨1, 0⟩, ⟨1, 1⟩, ⟨1, 2⟩, ⟨2, 2⟩, ⟨3, 2⟩, ⟨4, 2⟩, ⟨4, 3⟩, ⟨4, 4⟩]) ∧
    ∃ grid2, reconstruct_path 8 gap_marked ⟨0, 0⟩ ⟨4, 4⟩ =
      some (grid2, [⟨0, 0⟩, ⟨1, 0⟩, ⟨1, 1⟩, ⟨1, 2⟩, ⟨2, 2⟩, ⟨3, 2⟩, ⟨4, 2⟩, ⟨4, 3⟩, ⟨4, 4⟩]) :=
  ⟨rfl, (reconstruct_path_frame 8 gap_state.grid gap_marked ⟨0, 0⟩ ⟨4, 4⟩ _ rfl).2.2⟩

/-- Claim C13 at a concrete input: the search through the gap. -/
theorem came_from_chain_unbroken_witness :
    InBounds ⟨0, 0⟩ ∧ InBounds ⟨4, 4⟩ ∧ Fresh wall_with_gap ∧
    search wall_with_gap ⟨0, 0⟩ ⟨4, 4⟩ 9999 = Outcome.found gap_state ∧
    ∃ k : Nat, follow_came_from gap_state.grid k ⟨4, 4⟩ = ⟨0, 0⟩ :=
  ⟨by decide, by decide, fresh_grid_fresh _, rfl,
    (came_from_chain_unbroken wall_with_gap ⟨0, 0⟩ ⟨4, 4⟩ 9999 gap_state (by decide) (by decide)
      (fresh_grid_fresh _) rfl).imp (fun _ h => h.2.1)⟩

/-- Claim C14 at a concrete input: the state after 16 rounds of the search
through the gap. -/
theorem frontier_invariant_witness :
    InBounds ⟨0, 0⟩ ∧ InBounds ⟨4, 4⟩ ∧ Fresh wall_with_gap ∧
    rounds ⟨4, 4⟩ 16 (init_search wall_with_gap ⟨0, 0⟩ ⟨4, 4⟩) = some gap_state ∧
    gap_state.open_set.Nodup :=
  ⟨by decide, by decide, fresh_grid_fresh _, rfl,
    (frontier_invariant wall_with_gap ⟨0, 0⟩ ⟨4, 4⟩ (by decide) (by decide)
      (fresh_grid_fresh _) 16 gap_state rfl).1⟩

/-- Claim C15 at a concrete input: the first round of the search through the
gap. -/
theorem g_score_monotone_witness :
    InBounds ⟨0, 0⟩ ∧ InBounds ⟨4, 4⟩ ∧ Fresh wall_with_gap ∧
    rounds ⟨4, 4⟩ 0 (init_search wall_with_gap ⟨0, 0⟩ ⟨4, 4⟩) =
      some (init_search wall_with_gap ⟨0, 0⟩ ⟨4, 4⟩) ∧
    rounds ⟨4, 4⟩ 1 (init_search wall_with_gap ⟨0, 0⟩ ⟨4, 4⟩) =
      some ((rounds ⟨4, 4⟩ 1 (init_search wall_with_gap ⟨0, 0⟩ ⟨4, 4⟩)).getD gap_state) ∧
    ∀ x y, (((rounds ⟨4, 4⟩ 1 (init_search wall_with_gap ⟨0, 0⟩ ⟨4, 4⟩)).getD gap_state).grid
        x y).g_score ≤ ((init_search wall_with_gap ⟨0, 0⟩ ⟨4, 4⟩).grid x y).g_score :=
  ⟨by decide, by decide, fresh_grid_fresh _, rfl, rfl,
    (g_score_monotone wall_with_gap ⟨0, 0⟩ ⟨4, 4⟩ (by decide) (by decide)
      (fresh_grid_fresh _) 0 _ _ rfl rfl).1⟩

/-- Claim C16 at a concrete input: the state after 16 rounds of the search
through the gap. -/
theorem predecessor_cost_invariant_witness :
    InBounds ⟨0, 0⟩ ∧ InBounds ⟨4, 4⟩ ∧ Fresh wall_with_gap ∧
    rounds ⟨4, 4⟩ 16 (init_search wall_with_gap ⟨0, 0⟩ ⟨4, 4⟩) = some gap_state ∧
    ∀ p : Point, InBounds p → p ≠ ⟨0, 0⟩ →
      ((gap_state.grid p.x p.y).came_from = ⟨-1, -1⟩ →
        (gap_state.grid p.x p.y).g_score = INT_MAX) ∧
      ((gap_state.grid p.x p.y).g_score < INT_MAX →
        InBounds (gap_state.grid p.x p.y).came_from ∧
        Adjacent (gap_state.grid p.x p.y).came_from p) :=
  ⟨by decide, by decide, fresh_grid_fresh _, rfl,
    predecessor_cost_invariant wall_with_gap ⟨0, 0⟩ ⟨4, 4⟩ (by decide) (by decide)
      (fresh_grid_fresh _) 16 gap_state rfl gap_state.grid (Or.inr (Or.inl rfl))⟩

/-- Claim C17 at a concrete input: the state after 16 rounds of the search
through the gap. -/
theorem f_score_invariant_witness :
    InBounds ⟨0, 0⟩ ∧ InBounds ⟨4, 4⟩ ∧ Fresh wall_with_gap ∧
    rounds ⟨4, 4⟩ 16 (init_search wall_with_gap ⟨0, 0⟩ ⟨4, 4⟩) = some gap_state ∧
    ∀ p : Point, InBounds p → (gap_state.grid p.x p.y).g_score < INT_MAX →
      (gap_state.grid p.x p.y).f_score =
        (gap_state.grid p.x p.y).g_score + heuristic p ⟨4, 4⟩ :=
  ⟨by decide, by decide, fresh_grid_fresh _, rfl,
    (f_score_invariant wall_with_gap ⟨0, 0⟩ ⟨4, 4⟩ (by decide) (by decide)
      (fresh_grid_fresh _) 16 gap_state rfl).1⟩

/-- Claim C18 at a concrete input: the start of `main` on a grid without
walls. -/
theorem neighbours_from_spec_witness :
    InBounds ⟨1, 1⟩ ∧
    neighbours_from no_walls ⟨1, 1⟩ = [⟨0, 1⟩, ⟨1, 0⟩, ⟨2, 1⟩, ⟨1, 2⟩] ∧
    (neighbours_from no_walls ⟨1, 1⟩).Nodup :=
  ⟨by decide, by decide, (neighbours_from_spec no_walls ⟨1, 1⟩ (by decide)).2.2.1⟩

/-- Claim C19 at a concrete input: the search through the gap with the budget
of `main`. -/
theorem search_rounds_bounded_witness :
    InBounds ⟨0, 0⟩ ∧ InBounds ⟨4, 4⟩ ∧ Fresh wall_with_gap ∧
    report (search wall_with_gap ⟨0, 0⟩ ⟨4, 4⟩ 9999) ≠ Report.BudgetExceeded :=
  ⟨by decide, by decide, fresh_grid_fresh _,
    (search_rounds_bounded wall_with_gap ⟨0, 0⟩ ⟨4, 4⟩ (by decide) (by decide)
      (fresh_grid_fresh _)).2.1⟩

/-- Claim C20 at a concrete input: the state after 16 rounds of the search
through the gap. -/
theorem open_set_within_capacity_witness :
    InBounds ⟨0, 0⟩ ∧ InBounds ⟨4, 4⟩ ∧ Fresh wall_with_gap ∧
    rounds ⟨4, 4⟩ 16 (init_search wall_with_gap ⟨0, 0⟩ ⟨4, 4⟩) = some gap_state ∧
    (gap_state.open_set.length : Int) ≤ MAX_NODE_COUNT :=
  ⟨by decide, by decide, fresh_grid_fresh _, rfl,
    (open_set_within_capacity wall_with_gap ⟨0, 0⟩ ⟨4, 4⟩ (by decide) (by decide)
      (fresh_grid_fresh _) 16 gap_state rfl).2.1.2.2⟩

end AStar
